import Mathlib

/-!
Verification of the geometric core of `drawio2pptx` (draw.io → PowerPoint
converter).  The definitions below are a shallow embedding of
`drawio2pptx/io/drawio_loader.py`: Python strings are `List Char`
(so that all string operations reduce by structural recursion), Python
floats are modelled as exact rationals (`ℚ`) in the string-parsing layer
and as real numbers (`ℝ`) in the geometry layer, and fallible steps
return `Option`.  Each embedded definition carries a comment naming the
source function it translates.
-/

/-- Python strings, modelled as lists of characters so that every string
operation below is structurally recursive. -/
abbrev PyStr := List Char

/-- Python whitespace characters recognised by `str.strip()`. -/
def pyIsSpace (c : Char) : Bool :=
  c = ' ' || c = '\t' || c = '\n' || c = '\r' || c = Char.ofNat 11 || c = Char.ofNat 12

/-- Python `str.lstrip()` (whitespace only). -/
def pyLStrip (s : PyStr) : PyStr := s.dropWhile pyIsSpace

/-- Python `str.strip()` (whitespace only). -/
def pyStrip (s : PyStr) : PyStr := (pyLStrip (pyLStrip s).reverse).reverse

/-- Python `str.lower()` (ASCII case folding suffices for the style keys
that occur in draw.io files). -/
def pyLower (s : PyStr) : PyStr := s.map Char.toLower

/-- Python `str.split(sep)` for a one-character separator: keeps empty
fields, and `"".split(sep) == [""]`. -/
def pySplitChar (sep : Char) : PyStr → List PyStr
  | [] => [[]]
  | c :: rest =>
    match pySplitChar sep rest with
    | [] => [[c]]
    | h :: t => if c = sep then [] :: h :: t else (c :: h) :: t

/-- Python `sep in s` together with `s.split(sep, 1)` for a one-character
separator: returns the text before and after the first occurrence of
`sep`, or `none` when `sep` does not occur. -/
def pySplitOnce (sep : Char) : PyStr → Option (PyStr × PyStr)
  | [] => none
  | c :: rest =>
    if c = sep then some ([], rest)
    else (pySplitOnce sep rest).map (fun p => (c :: p.1, p.2))

/-- Python substring test `pat in s`. -/
def pyContains (pat : PyStr) : PyStr → Bool
  | [] => pat.isEmpty
  | c :: rest => pat.isPrefixOf (c :: rest) || pyContains pat rest

/-- Embeds `StyleExtractor.extract_style_value`: scan the `;`-separated
entries of a style string, split each entry on its first `=`, and return
the stripped value of the first entry whose stripped key equals `key`. -/
def extract_style_value (style_str : PyStr) (key : PyStr) : Option PyStr :=
  if style_str = [] then none
  else
    (pySplitChar ';' style_str).findSome? (fun part =>
      match pySplitOnce '=' part with
      | some (k, v) => if pyStrip k = key then some (pyStrip v) else none
      | none => none)

/-- Numeric value of a digit string (the digits of a Python decimal
literal). -/
def pyDigitsVal (s : PyStr) : ℕ := s.foldl (fun n c => n * 10 + (c.toNat - 48)) 0

/-- Models Python `float(s)` on the plain decimal literals that occur in
draw.io style strings: optional surrounding whitespace, optional sign,
digits with at most one decimal point.  Exponent and special forms are
not modelled and yield `none` (a `ValueError` in Python also makes the
callers below fall back to their defaults). -/
def parsePyFloatL (s : PyStr) : Option ℚ :=
  let t := pyStrip s
  let su : ℚ × PyStr :=
    match t with
    | '-' :: r => (-1, r)
    | '+' :: r => (1, r)
    | r => (1, r)
  let sign := su.1
  let u := su.2
  match pySplitChar '.' u with
  | [a] =>
    if a ≠ [] ∧ a.all Char.isDigit then some (sign * pyDigitsVal a) else none
  | [a, b] =>
    if (a ≠ [] ∨ b ≠ []) ∧ a.all Char.isDigit ∧ b.all Char.isDigit then
      some (sign * ((pyDigitsVal a : ℚ) + (pyDigitsVal b : ℚ) / ((10 : ℚ) ^ b.length)))
    else none
  | _ => none

/-- Embeds `StyleExtractor.extract_style_float`: look the key up in the
style string and parse it as a float, falling back to `default` when the
key is absent, empty, or fails to parse. -/
def extract_style_float (style_str : PyStr) (key : PyStr) (default : Option ℚ) : Option ℚ :=
  match extract_style_value style_str key with
  | some v =>
    if v ≠ [] then
      match parsePyFloatL v with
      | some f => some f
      | none => default
    else default
  | none => default

/-- Embeds `StyleExtractor._SHAPE_TYPE_MAP` (draw.io shape type →
normalized shape type). -/
def shapeTypeMapPairs : List (PyStr × PyStr) :=
  [("rect".toList, "rectangle".toList),
   ("rectangle".toList, "rectangle".toList),
   ("square".toList, "rectangle".toList),
   ("ellipse".toList, "ellipse".toList),
   ("circle".toList, "ellipse".toList),
   ("line".toList, "line".toList),
   ("mxgraph.basic.pentagon".toList, "pentagon".toList),
   ("mxgraph.basic.octagon2".toList, "octagon".toList),
   ("mxgraph.basic.acute_triangle".toList, "isosceles_triangle".toList),
   ("mxgraph.basic.orthogonal_triangle".toList, "right_triangle".toList),
   ("mxgraph.basic.4_point_star_2".toList, "4_point_star".toList),
   ("mxgraph.basic.star".toList, "5_point_star".toList),
   ("mxgraph.basic.6_point_star".toList, "6_point_star".toList),
   ("mxgraph.basic.8_point_star".toList, "8_point_star".toList),
   ("mxgraph.basic.smiley".toList, "smiley".toList),
   ("mxgraph.flowchart.decision".toList, "decision".toList),
   ("mxgraph.flowchart.data".toList, "data".toList),
   ("mxgraph.flowchart.document".toList, "document".toList),
   ("mxgraph.flowchart.process".toList, "process".toList),
   ("mxgraph.flowchart.predefined_process".toList, "predefinedprocess".toList),
   ("mxgraph.flowchart.paper_tape".toList, "tape".toList),
   ("mxgraph.flowchart.manual_input".toList, "manualinput".toList),
   ("mxgraph.flowchart.extract".toList, "extract".toList),
   ("mxgraph.flowchart.merge_or_storage".toList, "merge".toList),
   ("mxgraph.bpmn.shape".toList, "rhombus".toList),
   ("mxgraph.arrows2.arrow".toList, "right_arrow".toList),
   ("mxgraph.arrows2.stylisedarrow".toList, "notched_right_arrow".toList),
   ("mxgraph.infographic.shadedcube".toList, "cube".toList)]

/-- Dictionary lookup `_SHAPE_TYPE_MAP.get`. -/
def shapeTypeMap (s : PyStr) : Option PyStr := shapeTypeMapPairs.lookup s

/-- The unkeyed branch of `StyleExtractor.extract_shape_type` (the
`if style:` block): consult the style string's first `;`-token, falling
back to `rectangle` when the style is empty or the token is
unrecognized. -/
def extract_shape_type_unkeyed (style : PyStr) : PyStr :=
  if style ≠ [] then
    let parts := pySplitChar ';' style
    let first_part := pyLower (pyStrip (parts.headD []))
    if first_part = "swimlane".toList then "swimlane".toList
    else
      match shapeTypeMap first_part with
      | some normalized => normalized
      | none =>
        if first_part = "rhombus".toList then "rhombus".toList
        else if first_part = "process".toList then "process".toList
        else "rectangle".toList
  else "rectangle".toList

/-- Embeds `StyleExtractor.extract_shape_type` (the style string is the
cell's `style` attribute, `""` when absent).  The source tests
`if shape_type:` — Python truthiness — so the explicit `shape=` key is
preferred only when its value is present **and non-empty**; an absent or
empty value falls through to the first unkeyed token.  `shape=process`
with `backgroundOutline=1` or a positive `size` is retagged
`predefinedprocess`; unmapped explicit values pass through lowercased;
on the unkeyed path everything unrecognized falls back to `rectangle`. -/
def extract_shape_type (style : PyStr) : PyStr :=
  match extract_style_value style ("shape".toList) with
  | some shape_type0 =>
    if shape_type0 ≠ [] then
      let shape_type := pyLower shape_type0
      if shape_type = "swimlane".toList then "swimlane".toList
      else
        let process_retag : Bool :=
          (shape_type == "process".toList) &&
            ((pyStrip ((extract_style_value style ("backgroundOutline".toList)).getD []) == "1".toList) ||
             (match extract_style_value style ("size".toList) with
              | some size_value =>
                match parsePyFloatL size_value with
                | some f => decide (0 < f)
                | none => false
              | none => false))
        if process_retag then "predefinedprocess".toList
        else
          match shapeTypeMap shape_type with
          | some normalized => normalized
          | none => shape_type
    else extract_shape_type_unkeyed style
  | none => extract_shape_type_unkeyed style

/-- Absolute point in page pixels. -/
abbrev Pt := ℝ × ℝ

/-- Modelled from the spec: `ShapeElement` is a dataclass in
`model/intermediate.py`, which is not under `src/`.  Per §3 a Shape
carries an id, an absolute rectangle `(x, y, w, h)` in page pixels and a
normalized `shape_type`; only those fields are consulted by the routing
and boundary code verified here. -/
structure ShapeElement where
  id : Option PyStr := none
  x : ℝ
  y : ℝ
  w : ℝ
  h : ℝ
  shape_type : PyStr := "rectangle".toList

/-- Modelled from the spec: `PARALLELOGRAM_SKEW` is a constant in
`config.py`, which is not under `src/`.  §4.3 only requires the skew
offset to be clamped to at most 49% of the width, which
`boundary_point_parallelogram` enforces, so no theorem below depends on
the exact value chosen here. -/
noncomputable def PARALLELOGRAM_SKEW : ℝ := 1 / 4

noncomputable section

/-- Embeds `DrawIOLoader._boundary_point_rect`: snap extreme anchors to
the matching edge, otherwise project the interior anchor to the nearest
of the four edges.  Python's `min(a, b, c, d)` associates to the left. -/
def boundary_point_rect (shape : ShapeElement) (rel_x rel_y base_x base_y : ℝ) : Pt :=
  if rel_x ≤ 0 then (shape.x, base_y)
  else if rel_x ≥ 1 then (shape.x + shape.w, base_y)
  else if rel_y ≤ 0 then (base_x, shape.y)
  else if rel_y ≥ 1 then (base_x, shape.y + shape.h)
  else
    let dist_left := |base_x - shape.x|
    let dist_right := |base_x - (shape.x + shape.w)|
    let dist_top := |base_y - shape.y|
    let dist_bottom := |base_y - (shape.y + shape.h)|
    let min_dist := min (min (min dist_left dist_right) dist_top) dist_bottom
    if min_dist = dist_left then (shape.x, base_y)
    else if min_dist = dist_right then (shape.x + shape.w, base_y)
    else if min_dist = dist_top then (base_x, shape.y)
    else (base_x, shape.y + shape.h)

/-- Embeds `DrawIOLoader._boundary_point_rhombus`: scale the vector from
the center to the anchor onto the L1-normalized diamond boundary. -/
def boundary_point_rhombus (shape : ShapeElement) (base_x base_y : ℝ) : Pt :=
  let cx := shape.x + shape.w / 2
  let cy := shape.y + shape.h / 2
  let dx := base_x - cx
  let dy := base_y - cy
  if shape.w ≤ 0 then (base_x, base_y)
  else
    let denom := |dx| / (shape.w / 2) + |dy| / (shape.h / 2)
    if 0 < denom then
      let t := 1 / denom
      (cx + t * dx, cy + t * dy)
    else (base_x, base_y)

/-- Embeds `DrawIOLoader._boundary_point_ellipse`: scale the vector from
the center to the anchor by `1 / sqrt((dx/rx)² + (dy/ry)²)`. -/
def boundary_point_ellipse (shape : ShapeElement) (base_x base_y : ℝ) : Pt :=
  let cx := shape.x + shape.w / 2
  let cy := shape.y + shape.h / 2
  let dx := base_x - cx
  let dy := base_y - cy
  if shape.w ≤ 0 ∨ shape.h ≤ 0 then (base_x, base_y)
  else
    let denom_sq := (dx / (shape.w / 2)) ^ 2 + (dy / (shape.h / 2)) ^ 2
    if 0 < denom_sq then
      let t := 1 / Real.sqrt denom_sq
      (cx + t * dx, cy + t * dy)
    else (base_x, base_y)

/-- Linear interpolation between two points (the local `_lerp` helper of
`_boundary_point_parallelogram`). -/
def lerpPt (a b : Pt) (t : ℝ) : Pt := (a.1 + (b.1 - a.1) * t, a.2 + (b.2 - a.2) * t)

/-- The local `_closest_on_segment` helper of
`_boundary_point_parallelogram`: orthogonal projection onto the segment
with the parameter clamped to `[0, 1]`. -/
def closest_on_segment (px py ax ay bx byy : ℝ) : Pt :=
  let abx := bx - ax
  let aby := byy - ay
  let apx := px - ax
  let apy := py - ay
  let denom := abx * abx + aby * aby
  if denom ≤ 1e-12 then (ax, ay)
  else
    let t := (apx * abx + apy * aby) / denom
    let t := max 0 (min 1 t)
    (ax + t * abx, ay + t * aby)

/-- Embeds `DrawIOLoader._boundary_point_parallelogram`.  The Python
best-candidate loop starts from `poly[0]` with an infinite best
distance, so it is equivalent to folding the strict-improvement update
over the four per-edge closest points starting from the first one. -/
def boundary_point_parallelogram (shape : ShapeElement) (rel_x rel_y base_x base_y : ℝ) : Pt :=
  let skew := max 0 (min PARALLELOGRAM_SKEW 0.49)
  let x0 := shape.x
  let y0 := shape.y
  let w := shape.w
  let h := shape.h
  let offset := max 0 (min (skew * h) (w * 0.49))
  let tl : Pt := (x0 + offset, y0)
  let tr : Pt := (x0 + w, y0)
  let br : Pt := (x0 + w - offset, y0 + h)
  let bl : Pt := (x0, y0 + h)
  if rel_x ≤ 0 + 1e-9 then lerpPt tl bl rel_y
  else if rel_x ≥ 1 - 1e-9 then lerpPt tr br rel_y
  else if rel_y ≤ 0 + 1e-9 then lerpPt tl tr rel_x
  else if rel_y ≥ 1 - 1e-9 then lerpPt bl br rel_x
  else
    let cands : List Pt :=
      [closest_on_segment base_x base_y tl.1 tl.2 tr.1 tr.2,
       closest_on_segment base_x base_y tr.1 tr.2 br.1 br.2,
       closest_on_segment base_x base_y br.1 br.2 bl.1 bl.2,
       closest_on_segment base_x base_y bl.1 bl.2 tl.1 tl.2]
    match cands with
    | [] => tl
    | c0 :: rest =>
      rest.foldl (fun best c =>
        if (base_x - c.1) ^ 2 + (base_y - c.2) ^ 2 <
            (base_x - best.1) ^ 2 + (base_y - best.2) ^ 2 then c else best) c0

/-- Embeds `DrawIOLoader._calculate_boundary_point`: dispatch on the
shape family (substring tests on the lowercased shape type, in source
order) and add the pixel offset afterwards. -/
def calculate_boundary_point (shape : ShapeElement) (rel_x rel_y offset_x offset_y : ℝ) : Pt :=
  let st := pyLower shape.shape_type
  let base_x := shape.x + shape.w * rel_x
  let base_y := shape.y + shape.h * rel_y
  let p :=
    if pyContains ("parallelogram".toList) st || pyContains ("data".toList) st then
      boundary_point_parallelogram shape rel_x rel_y base_x base_y
    else if pyContains ("rhombus".toList) st then
      boundary_point_rhombus shape base_x base_y
    else if pyContains ("ellipse".toList) st || pyContains ("circle".toList) st then
      boundary_point_ellipse shape base_x base_y
    else
      boundary_point_rect shape rel_x rel_y base_x base_y
  (p.1 + offset_x, p.2 + offset_y)

/-- Embeds `DrawIOLoader._infer_port_side`: which side a relative anchor
points to, `none` when the anchor is (near) the center or missing. -/
def infer_port_side (rel_x rel_y : Option ℝ) : Option PyStr :=
  match rel_x, rel_y with
  | some rx, some ry =>
    let dx := |rx - 0.5|
    let dy := |ry - 0.5|
    if dx < 1e-9 ∧ dy < 1e-9 then none
    else if dx ≥ dy then (if rx ≥ 0.5 then some ("right".toList) else some ("left".toList))
    else (if ry ≥ 0.5 then some ("bottom".toList) else some ("top".toList))
  | _, _ => none

/-- Embeds `DrawIOLoader._dir_for_port_side`. -/
def dir_for_port_side (side : Option PyStr) : Option PyStr :=
  if side = some ("left".toList) ∨ side = some ("right".toList) then some ("h".toList)
  else if side = some ("top".toList) ∨ side = some ("bottom".toList) then some ("v".toList)
  else none

/-- Python `round()` (banker's rounding, ties to even). -/
def pyRound (x : ℝ) : ℤ :=
  let f := ⌊x⌋
  let r := x - (f : ℝ)
  if r < 1 / 2 then f else if 1 / 2 < r then f + 1 else (if Even f then f else f + 1)

/-- Embeds `DrawIOLoader._snap_to_grid`; note that `if not grid_size`
treats both `None` and `0.0` as "no grid". -/
def snap_to_grid (val : ℝ) (grid_size : Option ℝ) : ℝ :=
  match grid_size with
  | none => val
  | some gs =>
    if gs = 0 then val
    else if gs ≤ 0 then val
    else (pyRound (val / gs) : ℝ) * gs

/-- Embeds `DrawIOLoader._are_shapes_horizontally_aligned` (both shapes
are always bound at the call site, so the `None` guard is dropped). -/
def are_shapes_horizontally_aligned (source_shape target_shape : ShapeElement) : Bool :=
  if source_shape.y ≥ target_shape.y + target_shape.h ∨
      target_shape.y ≥ source_shape.y + source_shape.h then false
  else true

/-- Embeds `DrawIOLoader._ensure_orthogonal_route_respects_ports`.  The
final `h/h` and `v/v` two-bend branches of the source are unreachable
(the same conditions already returned earlier) and are kept verbatim. -/
def ensure_orthogonal_route_respects_ports
    (pts : List Pt) (exit_x exit_y entry_x entry_y : Option ℝ) (grid_size : Option ℝ) :
    List Pt :=
  match pts with
  | [p1, p2] =>
    let sx := p1.1
    let sy := p1.2
    let tx := p2.1
    let ty := p2.2
    if sx = tx ∨ sy = ty then [p1, p2]
    else
      let exit_side := infer_port_side exit_x exit_y
      let entry_side := infer_port_side entry_x entry_y
      let start_dir := dir_for_port_side exit_side
      let end_dir := dir_for_port_side entry_side
      if start_dir = some ("h".toList) ∧ end_dir = some ("h".toList) then
        let mid_y := (sy + ty) / 2
        [(sx, mid_y), (tx, mid_y)]
      else if start_dir = some ("v".toList) ∧ end_dir = some ("v".toList) then
        let mid_x := (sx + tx) / 2
        [(mid_x, sy), (mid_x, ty)]
      else if start_dir = none ∨ end_dir = none then
        (if |tx - sx| ≥ |ty - sy| then [(sx, sy), (tx, sy), (tx, ty)]
         else [(sx, sy), (sx, ty), (tx, ty)])
      else if start_dir = some ("h".toList) ∧ end_dir = some ("v".toList) then
        [(sx, sy), (tx, sy), (tx, ty)]
      else if start_dir = some ("v".toList) ∧ end_dir = some ("h".toList) then
        [(sx, sy), (sx, ty), (tx, ty)]
      else if start_dir = some ("h".toList) ∧ end_dir = some ("h".toList) then
        let x_mid := snap_to_grid ((sx + tx) / 2) grid_size
        let x_mid := if x_mid = sx then snap_to_grid (sx + (grid_size.getD 10)) grid_size else x_mid
        let x_mid := if x_mid = tx then snap_to_grid (tx - (grid_size.getD 10)) grid_size else x_mid
        [(sx, sy), (x_mid, sy), (x_mid, ty), (tx, ty)]
      else if start_dir = some ("v".toList) ∧ end_dir = some ("v".toList) then
        let y_mid := snap_to_grid ((sy + ty) / 2) grid_size
        let y_mid := if y_mid = sy then snap_to_grid (sy + (grid_size.getD 10)) grid_size else y_mid
        let y_mid := if y_mid = ty then snap_to_grid (ty - (grid_size.getD 10)) grid_size else y_mid
        [(sx, sy), (sx, y_mid), (tx, y_mid), (tx, ty)]
      else [p1, p2]
  | _ => pts

/-- Embeds `DrawIOLoader._build_default_orthogonal_points`: with no
stored waypoints, connect directly when the shape centers are aligned
within epsilon, otherwise evaluate the H-first (`a`) and V-first (`b`)
one-bend candidates and pick by dominant center delta, breaking exact
ties by total L1 length. -/
def build_default_orthogonal_points
    (source_shape target_shape : ShapeElement)
    (exit_dx exit_dy entry_dx entry_dy : ℝ) : List Pt :=
  let sx_c := source_shape.x + source_shape.w / 2
  let sy_c := source_shape.y + source_shape.h / 2
  let tx_c := target_shape.x + target_shape.w / 2
  let ty_c := target_shape.y + target_shape.h / 2
  let dx_c := tx_c - sx_c
  let dy_c := ty_c - sy_c
  let eps_center : ℝ := 1e-6
  if |dy_c| ≤ eps_center then
    let exit_x : ℝ := if dx_c ≥ 0 then 1 else 0
    let entry_x : ℝ := if dx_c ≥ 0 then 0 else 1
    let p1 := calculate_boundary_point source_shape exit_x 0.5 exit_dx exit_dy
    let p2 := calculate_boundary_point target_shape entry_x 0.5 entry_dx entry_dy
    [p1, p2]
  else if |dx_c| ≤ eps_center then
    let exit_y : ℝ := if dy_c ≥ 0 then 1 else 0
    let entry_y : ℝ := if dy_c ≥ 0 then 0 else 1
    let p1 := calculate_boundary_point source_shape 0.5 exit_y exit_dx exit_dy
    let p2 := calculate_boundary_point target_shape 0.5 entry_y entry_dx entry_dy
    [p1, p2]
  else
    let exit_a_x : ℝ := if tx_c ≥ sx_c then 1 else 0
    let entry_a_y : ℝ := if sy_c ≥ ty_c then 1 else 0
    let p1a := calculate_boundary_point source_shape exit_a_x 0.5 exit_dx exit_dy
    let p2a := calculate_boundary_point target_shape 0.5 entry_a_y entry_dx entry_dy
    let pa :=
      if p1a.1 = p2a.1 ∨ p1a.2 = p2a.2 then
        ([p1a, p2a], |p2a.1 - p1a.1| + |p2a.2 - p1a.2|)
      else
        let mid_a : Pt := (p2a.1, p1a.2)
        ([p1a, mid_a, p2a],
          |mid_a.1 - p1a.1| + |mid_a.2 - p1a.2| + |p2a.1 - mid_a.1| + |p2a.2 - mid_a.2|)
    let exit_b_y : ℝ := if ty_c ≥ sy_c then 1 else 0
    let entry_b_x : ℝ := if sx_c ≥ tx_c then 1 else 0
    let p1b := calculate_boundary_point source_shape 0.5 exit_b_y exit_dx exit_dy
    let p2b := calculate_boundary_point target_shape entry_b_x 0.5 entry_dx entry_dy
    let pb :=
      if p1b.1 = p2b.1 ∨ p1b.2 = p2b.2 then
        ([p1b, p2b], |p2b.1 - p1b.1| + |p2b.2 - p1b.2|)
      else
        let mid_b : Pt := (p1b.1, p2b.2)
        ([p1b, mid_b, p2b],
          |mid_b.1 - p1b.1| + |mid_b.2 - p1b.2| + |p2b.1 - mid_b.1| + |p2b.2 - mid_b.2|)
    if |dx_c| > |dy_c| then pa.1
    else if |dy_c| > |dx_c| then pb.1
    else if pa.2 ≤ pb.2 then pa.1
    else pb.1

/-- Embeds `DrawIOLoader._segment_rect_intersection_t_values`: clamped
parameters in `[0, 1]` where the segment meets the four rectangle edge
lines, deduplicated and sorted ascending (`sorted(set(ts))`). -/
def segment_rect_intersection_t_values (ax ay bx byy : ℝ) (shape : ShapeElement) : List ℝ :=
  let rx := shape.x
  let ry := shape.y
  let rwid := shape.w
  let rh := shape.h
  let dx := bx - ax
  let dy := byy - ay
  let eps : ℝ := 1e-9
  let left : List ℝ :=
    if eps < |dx| then
      let t := (rx - ax) / dx
      let py := ay + t * dy
      if (0 - eps ≤ t ∧ t ≤ 1 + eps) ∧ ry - eps ≤ py ∧ py ≤ ry + rh + eps then
        [max 0 (min 1 t)]
      else []
    else []
  let right : List ℝ :=
    if eps < |dx| then
      let t := (rx + rwid - ax) / dx
      let py := ay + t * dy
      if (0 - eps ≤ t ∧ t ≤ 1 + eps) ∧ ry - eps ≤ py ∧ py ≤ ry + rh + eps then
        [max 0 (min 1 t)]
      else []
    else []
  let top : List ℝ :=
    if eps < |dy| then
      let t := (ry - ay) / dy
      let px := ax + t * dx
      if (0 - eps ≤ t ∧ t ≤ 1 + eps) ∧ rx - eps ≤ px ∧ px ≤ rx + rwid + eps then
        [max 0 (min 1 t)]
      else []
    else []
  let bottom : List ℝ :=
    if eps < |dy| then
      let t := (ry + rh - ay) / dy
      let px := ax + t * dx
      if (0 - eps ≤ t ∧ t ≤ 1 + eps) ∧ rx - eps ≤ px ∧ px ≤ rx + rwid + eps then
        [max 0 (min 1 t)]
      else []
    else []
  ((left ++ right ++ top ++ bottom).eraseDups).insertionSort (· ≤ ·)

/-- Embeds `DrawIOLoader._natural_connector_endpoints`: exit where the
center-to-center segment leaves the source rectangle (smallest parameter
above the epsilon), enter where it last meets the target rectangle
(largest parameter below one minus epsilon). -/
def natural_connector_endpoints (source_shape target_shape : ShapeElement) : Option (Pt × Pt) :=
  let sx := source_shape.x + source_shape.w / 2
  let sy := source_shape.y + source_shape.h / 2
  let tx := target_shape.x + target_shape.w / 2
  let ty := target_shape.y + target_shape.h / 2
  if |tx - sx| < 1e-9 ∧ |ty - sy| < 1e-9 then none
  else
    let ts_src := segment_rect_intersection_t_values sx sy tx ty source_shape
    let ts_tgt := segment_rect_intersection_t_values sx sy tx ty target_shape
    let exit_ts := ts_src.filter (fun t => decide ((1e-9 : ℝ) < t))
    let entry_ts := ts_tgt.filter (fun t => decide (t < 1 - 1e-9))
    if exit_ts = [] ∨ entry_ts = [] then none
    else
      let t_exit := exit_ts.min?.getD 0
      let t_entry := entry_ts.max?.getD 0
      if t_entry < t_exit then none
      else
        some ((sx + t_exit * (tx - sx), sy + t_exit * (ty - sy)),
              (sx + t_entry * (tx - sx), sy + t_entry * (ty - sy)))

/-- Embeds `DrawIOLoader._auto_determine_ports`: default ports from the
direction to the first/last waypoint (or the other shape's center),
snapping to the dominant axis with a center fallback inside epsilon. -/
def auto_determine_ports (source_shape target_shape : ShapeElement) (points : List Pt) :
    ℝ × ℝ × ℝ × ℝ :=
  let sx := source_shape.x + source_shape.w / 2
  let sy := source_shape.y + source_shape.h / 2
  let tx := target_shape.x + target_shape.w / 2
  let ty := target_shape.y + target_shape.h / 2
  let eps : ℝ := 1e-6
  let dxy : ℝ × ℝ :=
    match points with
    | [] => (tx - sx, ty - sy)
    | first_point :: _ => (first_point.1 - sx, first_point.2 - sy)
  let dx := dxy.1
  let dy := dxy.2
  let ex : ℝ × ℝ :=
    if |dx| ≥ |dy| then
      ((if dx > eps then 1 else if dx < -eps then 0 else 0.5), 0.5)
    else
      (0.5, (if dy > eps then 1 else if dy < -eps then 0 else 0.5))
  let dxye : ℝ × ℝ :=
    match points with
    | [] => (sx - tx, sy - ty)
    | ps => let last_point := ps.getLastD (0, 0); (last_point.1 - tx, last_point.2 - ty)
  let dx_entry := dxye.1
  let dy_entry := dxye.2
  let en : ℝ × ℝ :=
    if |dx_entry| ≥ |dy_entry| then
      ((if dx_entry > eps then 1 else if dx_entry < -eps then 0 else 0.5), 0.5)
    else
      (0.5, (if dy_entry > eps then 1 else if dy_entry < -eps then 0 else 0.5))
  (ex.1, ex.2, en.1, en.2)

/-- Embeds the alignment-hint block of
`DrawIOLoader._resolve_connector_points` (orthogonal edges whose stored
`sourcePoint`/`targetPoint` are axis-aligned within one pixel yield hint
ports); returns `(hint_exit_x, hint_exit_y, hint_entry_x, hint_entry_y)`. -/
def resolve_alignment_hints
    (source_shape target_shape : ShapeElement)
    (points_raw : List Pt)
    (source_point target_point : Option Pt)
    (edge_style : PyStr) :
    Option ℝ × Option ℝ × Option ℝ × Option ℝ :=
  if edge_style = "orthogonal".toList ∧ points_raw = [] then
    match source_point, target_point with
    | some sp, some tp =>
      let sxp := sp.1
      let syp := sp.2
      let txp := tp.1
      let typ := tp.2
      let align_tol : ℝ := 1
      let dx_hint := |sxp - txp|
      let dy_hint := |syp - typ|
      if ¬(dx_hint ≤ align_tol ∧ dy_hint ≤ align_tol) then
        if dy_hint ≤ align_tol then
          let y_hint := (syp + typ) / 2
          let rel_exit_y :=
            max 0 (min 1 (if source_shape.h = 0 then 0.5 else (y_hint - source_shape.y) / source_shape.h))
          let rel_entry_y :=
            max 0 (min 1 (if target_shape.h = 0 then 0.5 else (y_hint - target_shape.y) / target_shape.h))
          if target_shape.x + target_shape.w / 2 ≥ source_shape.x + source_shape.w / 2 then
            (some 1, some rel_exit_y, some 0, some rel_entry_y)
          else
            (some 0, some rel_exit_y, some 1, some rel_entry_y)
        else if dx_hint ≤ align_tol then
          let x_hint := (sxp + txp) / 2
          let rel_exit_x :=
            max 0 (min 1 (if source_shape.w = 0 then 0.5 else (x_hint - source_shape.x) / source_shape.w))
          let rel_entry_x :=
            max 0 (min 1 (if target_shape.w = 0 then 0.5 else (x_hint - target_shape.x) / target_shape.w))
          if target_shape.y + target_shape.h / 2 ≥ source_shape.y + source_shape.h / 2 then
            (some rel_exit_x, some 1, some rel_entry_x, some 0)
          else
            (some rel_exit_x, some 0, some rel_entry_x, some 1)
        else (none, none, none, none)
      else (none, none, none, none)
    | _, _ => (none, none, none, none)
  else (none, none, none, none)

/-- Embeds the port-resolution steps of the general arm of
`DrawIOLoader._resolve_connector_points`: elbow default ports, hint
merging, auto ports, waypoint-side override and port projection onto the
nearest waypoint.  Returns
`(exit_x, exit_y, entry_x, entry_y, used_elbow_ports)`. -/
def resolve_final_ports
    (source_shape target_shape : ShapeElement)
    (points_for_ports : List Pt)
    (hints : Option ℝ × Option ℝ × Option ℝ × Option ℝ)
    (exit_x_val0 exit_y_val0 entry_x_val0 entry_y_val0 : Option ℝ)
    (edge_style : PyStr)
    (is_elbow_edge : Bool) :
    ℝ × ℝ × ℝ × ℝ × Bool :=
  let auto := auto_determine_ports source_shape target_shape points_for_ports
  let auto_exit_x := auto.1
  let auto_exit_y := auto.2.1
  let auto_entry_x := auto.2.2.1
  let auto_entry_y := auto.2.2.2
  let elbow : Option ℝ × Option ℝ × Option ℝ × Option ℝ × Bool :=
    if is_elbow_edge ∧ exit_x_val0 = none ∧ exit_y_val0 = none ∧
        entry_x_val0 = none ∧ entry_y_val0 = none then
      if are_shapes_horizontally_aligned source_shape target_shape then
        (some auto_exit_x, some auto_exit_y, some auto_entry_x, some auto_entry_y, false)
      else
        (some 0.5, some 1, some 0.5, some 0, true)
    else (exit_x_val0, exit_y_val0, entry_x_val0, entry_y_val0, false)
  let exit_x_val := elbow.1
  let exit_y_val := elbow.2.1
  let entry_x_val := elbow.2.2.1
  let entry_y_val := elbow.2.2.2.1
  let used_elbow_ports := elbow.2.2.2.2
  let exit_x_val := if exit_x_val = none then hints.1 else exit_x_val
  let exit_y_val := if exit_y_val = none then hints.2.1 else exit_y_val
  let entry_x_val := if entry_x_val = none then hints.2.2.1 else entry_x_val
  let entry_y_val := if entry_y_val = none then hints.2.2.2 else entry_y_val
  let exit_x := exit_x_val.getD auto_exit_x
  let exit_y := exit_y_val.getD auto_exit_y
  let entry_x := entry_x_val.getD auto_entry_x
  let entry_y := entry_y_val.getD auto_entry_y
  let exy : ℝ × ℝ :=
    if edge_style = "orthogonal".toList ∧ points_for_ports ≠ [] ∧ used_elbow_ports = false then
      let declared_exit := infer_port_side (some exit_x) (some exit_y)
      let implied_exit := infer_port_side (some auto_exit_x) (some auto_exit_y)
      if implied_exit ≠ none ∧ declared_exit ≠ implied_exit then (auto_exit_x, auto_exit_y)
      else (exit_x, exit_y)
    else (exit_x, exit_y)
  let exit_x := exy.1
  let exit_y := exy.2
  let nxy : ℝ × ℝ :=
    if edge_style = "orthogonal".toList ∧ points_for_ports ≠ [] ∧ used_elbow_ports = false then
      let declared_entry := infer_port_side (some entry_x) (some entry_y)
      let implied_entry := infer_port_side (some auto_entry_x) (some auto_entry_y)
      if implied_entry ≠ none ∧ declared_entry ≠ implied_entry then (auto_entry_x, auto_entry_y)
      else (entry_x, entry_y)
    else (entry_x, entry_y)
  let entry_x := nxy.1
  let entry_y := nxy.2
  let exy2 : ℝ × ℝ :=
    if edge_style = "orthogonal".toList ∧ points_for_ports ≠ [] ∧ used_elbow_ports = false then
      let first_pt := points_for_ports.headD (0, 0)
      match infer_port_side (some exit_x) (some exit_y) with
      | some exit_side =>
        if source_shape.w ≠ 0 ∧ source_shape.h ≠ 0 then
          if exit_side = "bottom".toList then
            (max 0 (min 1 ((first_pt.1 - source_shape.x) / source_shape.w)), 1)
          else if exit_side = "top".toList then
            (max 0 (min 1 ((first_pt.1 - source_shape.x) / source_shape.w)), 0)
          else if exit_side = "right".toList then
            (1, max 0 (min 1 ((first_pt.2 - source_shape.y) / source_shape.h)))
          else
            (0, max 0 (min 1 ((first_pt.2 - source_shape.y) / source_shape.h)))
        else (exit_x, exit_y)
      | none => (exit_x, exit_y)
    else (exit_x, exit_y)
  let exit_x := exy2.1
  let exit_y := exy2.2
  let nxy2 : ℝ × ℝ :=
    if edge_style = "orthogonal".toList ∧ points_for_ports ≠ [] ∧ used_elbow_ports = false then
      let last_pt := points_for_ports.getLastD (0, 0)
      match infer_port_side (some entry_x) (some entry_y) with
      | some entry_side =>
        if target_shape.w ≠ 0 ∧ target_shape.h ≠ 0 then
          if entry_side = "bottom".toList then
            (max 0 (min 1 ((last_pt.1 - target_shape.x) / target_shape.w)), 1)
          else if entry_side = "top".toList then
            (max 0 (min 1 ((last_pt.1 - target_shape.x) / target_shape.w)), 0)
          else if entry_side = "right".toList then
            (1, max 0 (min 1 ((last_pt.2 - target_shape.y) / target_shape.h)))
          else
            (0, max 0 (min 1 ((last_pt.2 - target_shape.y) / target_shape.h)))
        else (entry_x, entry_y)
      | none => (entry_x, entry_y)
    else (entry_x, entry_y)
  let entry_x := nxy2.1
  let entry_y := nxy2.2
  (exit_x, exit_y, entry_x, entry_y, used_elbow_ports)

/-- Embeds the general (port-based) arm of
`DrawIOLoader._resolve_connector_points`: resolve the final ports with
`resolve_final_ports`, take both boundary points, and stitch the
waypoints (with the elbow vertical runs when the elbow default ports
were used).  Returns the polyline together with the final
`(exit_x, exit_y, entry_x, entry_y)` values (which the caller feeds to
the orthogonal route fix-up). -/
def resolve_port_based_points
    (source_shape target_shape : ShapeElement)
    (points_raw points_for_ports : List Pt)
    (hints : Option ℝ × Option ℝ × Option ℝ × Option ℝ)
    (exit_x_val0 exit_y_val0 entry_x_val0 entry_y_val0 : Option ℝ)
    (exit_dx exit_dy entry_dx entry_dy : ℝ)
    (edge_style : PyStr)
    (is_elbow_edge : Bool) :
    List Pt × (Option ℝ × Option ℝ × Option ℝ × Option ℝ) :=
  let fp := resolve_final_ports source_shape target_shape points_for_ports hints
    exit_x_val0 exit_y_val0 entry_x_val0 entry_y_val0 edge_style is_elbow_edge
  let exit_x := fp.1
  let exit_y := fp.2.1
  let entry_x := fp.2.2.1
  let entry_y := fp.2.2.2.1
  let used_elbow_ports := fp.2.2.2.2
  let sPt := calculate_boundary_point source_shape exit_x exit_y exit_dx exit_dy
  let tPt := calculate_boundary_point target_shape entry_x entry_y entry_dx entry_dy
  let filtered := points_raw.filter (fun p => decide (p ≠ ((0 : ℝ), (0 : ℝ))))
  let pts :=
    if filtered = [] then [sPt, tPt]
    else if used_elbow_ports then
      let first_wp_y := (filtered.headD (0, 0)).2
      let last_wp_y := (filtered.getLastD (0, 0)).2
      [sPt, (sPt.1, first_wp_y)] ++ filtered ++ [(tPt.1, last_wp_y), (tPt.1, tPt.2)]
    else [sPt] ++ filtered ++ [tPt]
  (pts, (some exit_x, some exit_y, some entry_x, some entry_y))

/-- The main dispatch inside `DrawIOLoader._resolve_connector_points`:
the default orthogonal route, the natural straight intersection, or the
port-based arm, together with the final port values. -/
def resolve_main_points
    (source_shape target_shape : ShapeElement)
    (points_raw points_for_ports : List Pt)
    (hints : Option ℝ × Option ℝ × Option ℝ × Option ℝ)
    (exit_x_val0 exit_y_val0 entry_x_val0 entry_y_val0 : Option ℝ)
    (exit_dx exit_dy entry_dx entry_dy : ℝ)
    (edge_style : PyStr)
    (is_elbow_edge : Bool) : List Pt × (Option ℝ × Option ℝ × Option ℝ × Option ℝ) :=
  if edge_style = "orthogonal".toList ∧ points_raw = [] ∧ exit_x_val0 = none ∧
      exit_y_val0 = none ∧ entry_x_val0 = none ∧ entry_y_val0 = none ∧ is_elbow_edge = false then
    (build_default_orthogonal_points source_shape target_shape exit_dx exit_dy entry_dx entry_dy,
      (none, none, none, none))
  else
    let naturalPts : Option (List Pt) :=
      if edge_style ≠ "orthogonal".toList ∧ points_raw = [] ∧ exit_x_val0 = none ∧
          exit_y_val0 = none ∧ entry_x_val0 = none ∧ entry_y_val0 = none ∧
          is_elbow_edge = false then
        (natural_connector_endpoints source_shape target_shape).map (fun pr => [pr.1, pr.2])
      else none
    match naturalPts with
    | some pts => (pts, (none, none, none, none))
    | none =>
      resolve_port_based_points source_shape target_shape points_raw points_for_ports hints
        exit_x_val0 exit_y_val0 entry_x_val0 entry_y_val0
        exit_dx exit_dy entry_dx entry_dy edge_style is_elbow_edge

/-- Embeds `DrawIOLoader._resolve_connector_points` for two bound
shapes: read the explicit port values and pixel offsets from the style
string, compute the alignment hints, dispatch through
`resolve_main_points`, and finally apply the orthogonal two-point
fix-up. -/
def resolve_connector_points
    (source_shape target_shape : ShapeElement)
    (points_raw points_for_ports : List Pt)
    (source_point target_point : Option Pt)
    (style_str : PyStr)
    (edge_style : PyStr)
    (is_elbow_edge : Bool)
    (grid_size : Option ℝ) : List Pt :=
  let exit_x_val0 : Option ℝ := (extract_style_float style_str ("exitX".toList) none).map Rat.cast
  let exit_y_val0 : Option ℝ := (extract_style_float style_str ("exitY".toList) none).map Rat.cast
  let entry_x_val0 : Option ℝ := (extract_style_float style_str ("entryX".toList) none).map Rat.cast
  let entry_y_val0 : Option ℝ := (extract_style_float style_str ("entryY".toList) none).map Rat.cast
  let exit_dx : ℝ := ((extract_style_float style_str ("exitDx".toList) (some 0)).getD 0 : ℚ)
  let exit_dy : ℝ := ((extract_style_float style_str ("exitDy".toList) (some 0)).getD 0 : ℚ)
  let entry_dx : ℝ := ((extract_style_float style_str ("entryDx".toList) (some 0)).getD 0 : ℚ)
  let entry_dy : ℝ := ((extract_style_float style_str ("entryDy".toList) (some 0)).getD 0 : ℚ)
  let hints :=
    resolve_alignment_hints source_shape target_shape points_raw source_point target_point edge_style
  let main :=
    resolve_main_points source_shape target_shape points_raw points_for_ports hints
      exit_x_val0 exit_y_val0 entry_x_val0 entry_y_val0
      exit_dx exit_dy entry_dx entry_dy edge_style is_elbow_edge
  let points := main.1
  let ports := main.2
  if edge_style = "orthogonal".toList ∧ points.length = 2 then
    ensure_orthogonal_route_respects_ports points ports.1 ports.2.1 ports.2.2.1 ports.2.2.2 grid_size
  else points

/-- Embeds the connector-point logic of `DrawIOLoader._extract_connector`
(after `_parse_connector_geometry`): floating edges concatenate their
explicit endpoints and waypoints verbatim or are dropped when fewer than
two raw points remain; edges bound to two shapes are routed by
`resolve_connector_points`.  `none` means no connector is emitted. -/
def extract_connector_points
    (source_shape target_shape : Option ShapeElement)
    (points_raw : List Pt)
    (source_point target_point : Option Pt)
    (points_for_ports : List Pt)
    (style_str edge_style : PyStr)
    (is_elbow_edge : Bool)
    (grid_size : Option ℝ) : Option (List Pt) :=
  match source_shape, target_shape with
  | some s, some t =>
    some (resolve_connector_points s t points_raw points_for_ports source_point target_point
      style_str edge_style is_elbow_edge grid_size)
  | _, _ =>
    match source_point, target_point with
    | some sp, some tp => some (sp :: (points_raw ++ [tp]))
    | _, _ => if 2 ≤ points_raw.length then some points_raw else none

/-- Modelled from the spec: the element records of
`model/intermediate.py` are not under `src/`.  Per §3, shapes carry an
absolute rectangle while connectors and polygons carry a point list (and
inherit default zero geometry); `has_points` stands for the
`isinstance(element, (ConnectorElement, PolygonElement))` test in the
loader's bounds/translation helpers. -/
structure BaseElem where
  x : ℝ := 0
  y : ℝ := 0
  w : ℝ := 0
  h : ℝ := 0
  has_points : Bool := false
  points : List Pt := []

/-- Embeds `DrawIOLoader._get_element_bounds` (the source never returns
`None`: point-based elements with an empty list fall back to the
rectangle).  The `getD 0` defaults are unreachable because the point
list is non-empty in that branch. -/
def get_element_bounds (e : BaseElem) : ℝ × ℝ × ℝ × ℝ :=
  if e.has_points ∧ e.points ≠ [] then
    let xs := e.points.map Prod.fst
    let ys := e.points.map Prod.snd
    ((xs.min?).getD 0, (ys.min?).getD 0, (xs.max?).getD 0, (ys.max?).getD 0)
  else
    (min e.x (e.x + e.w), min e.y (e.y + e.h), max e.x (e.x + e.w), max e.y (e.y + e.h))

/-- Embeds `DrawIOLoader._get_elements_bounds`; the source's `±inf`
sentinels become an `Option` accumulator (`none` exactly when no element
contributed, i.e. the list is empty). -/
def get_elements_bounds (es : List BaseElem) : Option (ℝ × ℝ × ℝ × ℝ) :=
  es.foldl (fun acc e =>
    let b := get_element_bounds e
    match acc with
    | none => some b
    | some a => some (min a.1 b.1, min a.2.1 b.2.1, max a.2.2.1 b.2.2.1, max a.2.2.2 b.2.2.2))
    none

/-- Embeds `DrawIOLoader._apply_translation`. -/
def apply_translation (es : List BaseElem) (dx dy : ℝ) : List BaseElem :=
  if dx = 0 ∧ dy = 0 then es
  else es.map (fun e =>
    { e with
      x := e.x + dx
      y := e.y + dy
      points := e.points.map (fun p => (p.1 + dx, p.2 + dy)) })

/-- Embeds `DrawIOLoader._maybe_normalize_page_offset`: when the content
bounding box lies entirely outside the page rectangle, translate
everything by a page-fitting offset (centered on an axis where the
content fits, flush to the origin otherwise). -/
def maybe_normalize_page_offset (es : List BaseElem) (page_width page_height : Option ℝ) :
    List BaseElem :=
  if es.isEmpty then es
  else
    match page_width, page_height with
    | some pw, some ph =>
      match get_elements_bounds es with
      | none => es
      | some b =>
        let min_x := b.1
        let min_y := b.2.1
        let max_x := b.2.2.1
        let max_y := b.2.2.2
        if max_x < 0 ∨ max_y < 0 ∨ min_x > pw ∨ min_y > ph then
          let width := max_x - min_x
          let height := max_y - min_y
          let offset_x := if width ≤ pw then (pw - width) / 2 - min_x else -min_x
          let offset_y := if height ≤ ph then (ph - height) / 2 - min_y else -min_y
          apply_translation es offset_x offset_y
        else es
    | _, _ => es

end

/-- Transient input cell (spec §3): id, parent reference, vertex/edge
flags (`attrib.get("vertex") == "1"` etc.), style string and the raw
`mxGeometry` attribute strings of a vertex. -/
structure MxGeom where
  gx : Option PyStr := none
  gy : Option PyStr := none
  gwidth : Option PyStr := none
  gheight : Option PyStr := none
deriving DecidableEq

/-- Raw `mxCell` record as consumed by the loader. -/
structure MxCell where
  id : Option PyStr := none
  parent : Option PyStr := none
  vertex : Bool := false
  edge : Bool := false
  style : PyStr := []
  geom : Option MxGeom := none
deriving DecidableEq

/-- One geometry attribute: `float(geo.attrib.get(key, "0") or 0)` —
a missing or empty attribute counts as `0`, an unparseable one poisons
the whole geometry (`ValueError` → `None`). -/
def parseGeomAttr (a : Option PyStr) : Option ℚ :=
  match a with
  | none => some 0
  | some s => if s = [] then some 0 else parsePyFloatL s

/-- Embeds `DrawIOLoader._parse_geometry_from_cell`. -/
def parse_geometry_from_cell (c : MxCell) : Option (ℚ × ℚ × ℚ × ℚ) :=
  match c.geom with
  | none => none
  | some g =>
    match parseGeomAttr g.gx, parseGeomAttr g.gy, parseGeomAttr g.gwidth, parseGeomAttr g.gheight with
    | some x, some y, some w, some h => some (x, y, w, h)
    | _, _, _, _ => none

/-- Shape as recorded in the extracted model, restricted to the fields
the claims consult: id, parsed width/height, and draw-order z-index.
The absolute x/y (parent-chain and swimlane offsets) and style/text
fields of `ShapeElement` are not consulted by any claim about
`extract_elements` and are omitted here. -/
structure ShapeRec where
  id : Option PyStr
  w : ℚ
  h : ℚ
  z_index : ℤ
deriving DecidableEq

/-- Embeds `cell_by_id`: the first cell carrying the given id
(`if cid not in cell_by_id: cell_by_id[cid] = cell`). -/
def cellById (cells : List MxCell) (cid : PyStr) : Option MxCell :=
  cells.find? (fun c => c.id == some cid)

/-- Embeds `children_by_parent`: ids (document order) of cells whose
non-empty `parent` attribute equals `p`; cells without an id are
skipped. -/
def childrenByParent (cells : List MxCell) (p : PyStr) : List PyStr :=
  cells.filterMap (fun c =>
    match c.id, c.parent with
    | some cid, some par => if par = p ∧ par ≠ [] then some cid else none
    | _, _ => none)

/-- Embeds membership in `container_vertex_ids`: a non-root id that is
referenced as some cell's parent and whose (first) cell is a vertex and
not an edge. -/
def isContainerVertexId (cells : List MxCell) (pid : PyStr) : Bool :=
  (!(pid == "0".toList)) && (!(pid == "1".toList)) && (!(pid == ([] : PyStr))) &&
  (cells.any (fun c => c.parent == some pid)) &&
  (match cellById cells pid with
   | some pc => pc.vertex && !pc.edge
   | none => false)

/-- Embeds the recursive `_append_draw_order` walker as an explicit
depth-first stack machine (the stack holds the not-yet-processed
remainder of each nested `for` loop, so the traversal order is exactly
the source's recursion): state is `(visited, draw_order_ids)`; each
unvisited child id is marked visited, appended when its cell is a vertex
or an edge, and its own children list is pushed.  One unit of fuel is
spent per step; `2 * cells.length + 2` steps suffice because every
processed id consumes one element of some children list (each cell
contributes its id to exactly one such list) and every pop removes one
pushed list. -/
def appendDrawOrderStack (cells : List MxCell) :
    ℕ → List (List PyStr) → List PyStr × List PyStr → List PyStr × List PyStr
  | 0, _, st => st
  | Nat.succ fuel, stack, st =>
    match stack with
    | [] => st
    | [] :: outer => appendDrawOrderStack cells fuel outer st
    | (cid :: rest) :: outer =>
      if cid ∈ st.1 then appendDrawOrderStack cells fuel (rest :: outer) st
      else
        let visited' := cid :: st.1
        match cellById cells cid with
        | none => appendDrawOrderStack cells fuel (rest :: outer) (visited', st.2)
        | some c =>
          let order' := if c.vertex || c.edge then st.2 ++ [cid] else st.2
          appendDrawOrderStack cells fuel
            (childrenByParent cells cid :: rest :: outer) (visited', order')

/-- Ids in document order with later duplicates dropped (the key set of
`document_order`, sorted by first-occurrence index). -/
def documentOrderIds (cells : List MxCell) : List PyStr := (cells.filterMap MxCell.id).eraseDups

/-- The depth-first `draw_order_ids` produced by `_append_draw_order`
starting from root `"0"` (or `"1"` when `"0"` has no children). -/
def drawOrderWalked (cells : List MxCell) : List PyStr :=
  let fuel := 2 * cells.length + 2
  let ids0 := childrenByParent cells ("0".toList)
  let ids1 := childrenByParent cells ("1".toList)
  if ids0 ≠ [] then (appendDrawOrderStack cells fuel [ids0] ([], [])).2
  else if ids1 ≠ [] then (appendDrawOrderStack cells fuel [ids1] ([], [])).2
  else []

/-- Embeds the draw-order construction of
`_build_cell_index_and_draw_order`: depth-first from root `"0"` (or
`"1"`), falling back to document order over vertex/edge cells when the
walk yields nothing. -/
def buildDrawOrder (cells : List MxCell) : List PyStr :=
  let walked := drawOrderWalked cells
  if walked = [] then
    (documentOrderIds cells).filter (fun cid =>
      match cellById cells cid with
      | some c => c.vertex || c.edge
      | none => false)
  else walked

/-- Embeds the `cell_order` dictionary comprehension
(`{cid: idx for idx, cid in enumerate(draw_order_ids)}`): the index of
the last occurrence of `cid`. -/
def cellOrderGet (order : List PyStr) (cid : PyStr) : Option ℕ :=
  ((order.enum.filter (fun p => p.2 == cid)).getLast?).map Prod.fst

/-- The z-index `extract_elements` assigns to a shape with the given id:
`cell_order.get(id, 0)`, minus `100000` for container vertices; a shape
without an id keeps the initial `0`. -/
def shape_z_index (cells : List MxCell) (sid : Option PyStr) : ℤ :=
  match sid with
  | none => 0
  | some i =>
    let base : ℤ := ((cellOrderGet (buildDrawOrder cells) i).getD 0 : ℕ)
    if isContainerVertexId cells i then base - 100000 else base

/-- Embeds the geometry gate of `DrawIOLoader._extract_shape`: a vertex
with no parseable `mxGeometry` is rejected, otherwise a shape with the
parsed width/height is produced (no positivity check is performed). -/
def extract_shape (c : MxCell) : Option ShapeRec :=
  match parse_geometry_from_cell c with
  | none => none
  | some g => some ⟨c.id, g.2.2.1, g.2.2.2, 0⟩

/-- Embeds the shape pass of `DrawIOLoader.extract_elements`: every
vertex cell is offered to `extract_shape`, and accepted shapes receive
their draw-order z-index (containers pushed back by `100000`). -/
def extract_shapes_with_z (cells : List MxCell) : List ShapeRec :=
  cells.filterMap (fun c =>
    if c.vertex then
      (extract_shape c).map (fun s => { s with z_index := shape_z_index cells s.id })
    else none)

noncomputable section

/-- The horizontal-first one-bend candidate route (and its total L1
length) that `_build_default_orthogonal_points` evaluates: exit the
source on the side facing the target, enter the target top or bottom,
bend at `(target_x, source_y)`; degenerates to two points when the two
boundary points already share an axis. -/
def hv_candidate (source_shape target_shape : ShapeElement)
    (exit_dx exit_dy entry_dx entry_dy : ℝ) : List Pt × ℝ :=
  let sx_c := source_shape.x + source_shape.w / 2
  let sy_c := source_shape.y + source_shape.h / 2
  let tx_c := target_shape.x + target_shape.w / 2
  let ty_c := target_shape.y + target_shape.h / 2
  let exit_a_x : ℝ := if tx_c ≥ sx_c then 1 else 0
  let entry_a_y : ℝ := if sy_c ≥ ty_c then 1 else 0
  let p1a := calculate_boundary_point source_shape exit_a_x 0.5 exit_dx exit_dy
  let p2a := calculate_boundary_point target_shape 0.5 entry_a_y entry_dx entry_dy
  if p1a.1 = p2a.1 ∨ p1a.2 = p2a.2 then
    ([p1a, p2a], |p2a.1 - p1a.1| + |p2a.2 - p1a.2|)
  else
    let mid_a : Pt := (p2a.1, p1a.2)
    ([p1a, mid_a, p2a],
      |mid_a.1 - p1a.1| + |mid_a.2 - p1a.2| + |p2a.1 - mid_a.1| + |p2a.2 - mid_a.2|)

/-- The vertical-first one-bend candidate route (and its total L1
length) that `_build_default_orthogonal_points` evaluates. -/
def vh_candidate (source_shape target_shape : ShapeElement)
    (exit_dx exit_dy entry_dx entry_dy : ℝ) : List Pt × ℝ :=
  let sx_c := source_shape.x + source_shape.w / 2
  let sy_c := source_shape.y + source_shape.h / 2
  let tx_c := target_shape.x + target_shape.w / 2
  let ty_c := target_shape.y + target_shape.h / 2
  let exit_b_y : ℝ := if ty_c ≥ sy_c then 1 else 0
  let entry_b_x : ℝ := if sx_c ≥ tx_c then 1 else 0
  let p1b := calculate_boundary_point source_shape 0.5 exit_b_y exit_dx exit_dy
  let p2b := calculate_boundary_point target_shape entry_b_x 0.5 entry_dx entry_dy
  if p1b.1 = p2b.1 ∨ p1b.2 = p2b.2 then
    ([p1b, p2b], |p2b.1 - p1b.1| + |p2b.2 - p1b.2|)
  else
    let mid_b : Pt := (p1b.1, p2b.2)
    ([p1b, mid_b, p2b],
      |mid_b.1 - p1b.1| + |mid_b.2 - p1b.2| + |p2b.1 - mid_b.1| + |p2b.2 - mid_b.2|)

/-- The point `p` lies on the closed segment from `a` to `b`. -/
def OnSegment (a b p : Pt) : Prop := ∃ t : ℝ, 0 ≤ t ∧ t ≤ 1 ∧ p = lerpPt a b t

/-- The point lies on the boundary of the shape's bounding rectangle. -/
def OnRectBoundary (s : ShapeElement) (p : Pt) : Prop :=
  ((p.1 = s.x ∨ p.1 = s.x + s.w) ∧ s.y ≤ p.2 ∧ p.2 ≤ s.y + s.h) ∨
  ((p.2 = s.y ∨ p.2 = s.y + s.h) ∧ s.x ≤ p.1 ∧ p.1 ≤ s.x + s.w)

/-- The point lies exactly on the inscribed ellipse of the shape's
rectangle: `((x - cx)/rx)² + ((y - cy)/ry)² = 1`. -/
def OnEllipse (s : ShapeElement) (p : Pt) : Prop :=
  ((p.1 - (s.x + s.w / 2)) / (s.w / 2)) ^ 2 + ((p.2 - (s.y + s.h / 2)) / (s.h / 2)) ^ 2 = 1

/-- The point lies exactly on the inscribed diamond of the shape's
rectangle: `|x - cx|/rx + |y - cy|/ry = 1`. -/
def OnRhombus (s : ShapeElement) (p : Pt) : Prop :=
  |p.1 - (s.x + s.w / 2)| / (s.w / 2) + |p.2 - (s.y + s.h / 2)| / (s.h / 2) = 1

/-- The point lies on the skewed quadrilateral that
`boundary_point_parallelogram` draws (top edge shifted right, bottom
edge shifted left, shift clamped to 49% of the width). -/
def OnParallelogramBoundary (s : ShapeElement) (p : Pt) : Prop :=
  let skew := max 0 (min PARALLELOGRAM_SKEW 0.49)
  let offset := max 0 (min (skew * s.h) (s.w * 0.49))
  let tl : Pt := (s.x + offset, s.y)
  let tr : Pt := (s.x + s.w, s.y)
  let br : Pt := (s.x + s.w - offset, s.y + s.h)
  let bl : Pt := (s.x, s.y + s.h)
  OnSegment tl tr p ∨ OnSegment tr br p ∨ OnSegment br bl p ∨ OnSegment bl tl p

end

/-- A concrete document with a dangling container chain: `k` sits under
the root, while `c`, `d`, `e` form a parent chain whose top parent `zz`
does not exist, so the depth-first walk never reaches them. -/
def cexCells : List MxCell :=
  [⟨some ("k".toList), some ("1".toList), true, false, [], some ⟨none, none, none, none⟩⟩,
   ⟨some ("c".toList), some ("zz".toList), true, false, [], some ⟨none, none, none, none⟩⟩,
   ⟨some ("d".toList), some ("c".toList), true, false, [], some ⟨none, none, none, none⟩⟩,
   ⟨some ("e".toList), some ("d".toList), true, false, [], some ⟨none, none, none, none⟩⟩]

/-- A concrete document with a properly rooted container: vertex `a`
under the root `1` containing the vertex `b`. -/
def wfCells : List MxCell :=
  [⟨some ("a".toList), some ("1".toList), true, false, [], some ⟨none, none, none, none⟩⟩,
   ⟨some ("b".toList), some ("a".toList), true, false, [], some ⟨none, none, none, none⟩⟩]

/-! ## Theorems -/

/-- Helper for C10: when the per-entry scan body yields nothing. -/
theorem styleEntry_none_iff (key part : PyStr) :
    (match pySplitOnce '=' part with
     | some (k, v) => if pyStrip k = key then some (pyStrip v) else none
     | none => none) = none ↔
    ∀ k v, pySplitOnce '=' part = some (k, v) → pyStrip k ≠ key := by
  rcases h : pySplitOnce '=' part with _ | ⟨k, v⟩
  · simp
  · simp only [h]
    constructor
    · intro hnone k' v' hkv
      injection hkv with hp
      injection hp with h1 h2
      subst h1
      subst h2
      intro hk
      rw [if_pos hk] at hnone
      exact Option.noConfusion hnone
    · intro hall
      rw [if_neg (hall k v rfl)]

/-- Helper for C10: when the per-entry scan body yields a value. -/
theorem styleEntry_some_iff (key part v0 : PyStr) :
    (match pySplitOnce '=' part with
     | some (k, v) => if pyStrip k = key then some (pyStrip v) else none
     | none => none) = some v0 ↔
    ∃ k v, pySplitOnce '=' part = some (k, v) ∧ pyStrip k = key ∧ v0 = pyStrip v := by
  rcases h : pySplitOnce '=' part with _ | ⟨k, v⟩
  · simp
  · simp only [h]
    constructor
    · intro hsome
      by_cases hk : pyStrip k = key
      · rw [if_pos hk] at hsome
        exact ⟨k, v, rfl, hk, (Option.some_injective _ hsome).symm⟩
      · rw [if_neg hk] at hsome
        exact absurd hsome (by simp)
    · rintro ⟨k', v', hkv, hk, hv⟩
      injection hkv with hp
      injection hp with h1 h2
      subst h1
      subst h2
      rw [if_pos hk, hv]

/-- C10: for every style string and key, the style-lookup function
returns the stripped value of the first `;`-delimited entry of the form
`key=value` (split on the first `=`) whose stripped key equals the
requested key, and returns `none` when the style string is empty or
contains no such entry — so when a key occurs multiple times, the
earliest occurrence wins. -/
theorem extract_style_value_first_entry_wins (style_str key : PyStr) :
    (extract_style_value style_str key = none ↔
      ∀ part ∈ pySplitChar ';' style_str, ∀ k v,
        pySplitOnce '=' part = some (k, v) → pyStrip k ≠ key) ∧
    (∀ v0, extract_style_value style_str key = some v0 ↔
      ∃ pre part post, pySplitChar ';' style_str = pre ++ part :: post ∧
        (∃ k v, pySplitOnce '=' part = some (k, v) ∧ pyStrip k = key ∧ v0 = pyStrip v) ∧
        ∀ q ∈ pre, ∀ k v, pySplitOnce '=' q = some (k, v) → pyStrip k ≠ key) := by
  by_cases hs : style_str = []
  · subst hs
    have hval : extract_style_value [] key = none := rfl
    have hparts : pySplitChar ';' ([] : PyStr) = [[]] := rfl
    constructor
    · rw [hval, hparts]
      constructor
      · intro _ part hpart k v hkv
        have hp : part = ([] : PyStr) := by simpa using hpart
        subst hp
        simp [pySplitOnce] at hkv
      · intro _
        rfl
    · intro v0
      rw [hval, hparts]
      constructor
      · intro h
        exact absurd h (by simp)
      · rintro ⟨pre, part, post, hdec, ⟨k, v, hkv, -, -⟩, -⟩
        rcases pre with _ | ⟨p, pre⟩
        · rw [List.nil_append] at hdec
          injection hdec with h1 h2
          subst h1
          simp [pySplitOnce] at hkv
        · injection hdec with h1 h2
          exact absurd h2 (by simp)
  · have hunfold : extract_style_value style_str key =
        (pySplitChar ';' style_str).findSome? (fun part =>
          match pySplitOnce '=' part with
          | some (k, v) => if pyStrip k = key then some (pyStrip v) else none
          | none => none) := by
      rw [extract_style_value, if_neg hs]
    constructor
    · rw [hunfold, List.findSome?_eq_none_iff]
      constructor
      · intro hall part hpart
        exact (styleEntry_none_iff key part).1 (hall part hpart)
      · intro hall part hpart
        exact (styleEntry_none_iff key part).2 (hall part hpart)
    · intro v0
      rw [hunfold, List.findSome?_eq_some_iff]
      constructor
      · rintro ⟨pre, part, post, hdec, hsome, hpre⟩
        exact ⟨pre, part, post, hdec, (styleEntry_some_iff key part v0).1 hsome,
          fun q hq => (styleEntry_none_iff key q).1 (hpre q hq)⟩
      · rintro ⟨pre, part, post, hdec, hsome, hpre⟩
        exact ⟨pre, part, post, hdec, (styleEntry_some_iff key part v0).2 hsome,
          fun q hq => (styleEntry_none_iff key q).2 (hpre q hq)⟩

/-- C8 counterexample: the claim's clause (2) — "a shape-type string not
found in the fixed lookup table passes through unchanged" — is false on
the code: `shape=process` (not a key of the table) is rewritten to
`predefinedprocess` when `backgroundOutline=1`, and `shape=Cloud` (not a
key of the table) is lowercased to `cloud`. -/
theorem extract_shape_type_not_verbatim :
    extract_shape_type ("shape=process;backgroundOutline=1".toList) = "predefinedprocess".toList ∧
    shapeTypeMap ("process".toList) = none ∧
    extract_shape_type ("shape=Cloud".toList) = "cloud".toList ∧
    shapeTypeMap ("Cloud".toList) = none ∧
    "predefinedprocess".toList ≠ "process".toList ∧
    "cloud".toList ≠ "Cloud".toList := by
  decide

/-- C8 (amended): (1) when a `shape=` style key is present with a
non-empty value, that value takes priority over the style string's
first unkeyed token: a value that (lowercased) is neither `swimlane`
nor `process` is mapped through the fixed lookup table, passing through
**lowercased** when absent from the table; (2) an **empty** `shape=`
value is falsy under the source's `if shape_type:` test, so it falls
through to the unkeyed first-token path; (3) a cell whose `shape=` key
is absent or empty and whose first token is not recognised (not
`swimlane`, not in the table, not `rhombus`, not `process`) yields
`rectangle`. -/
theorem extract_shape_type_priority_and_default :
    (∀ style v, extract_style_value style ("shape".toList) = some v → v ≠ [] →
      pyLower v ≠ "swimlane".toList → pyLower v ≠ "process".toList →
      extract_shape_type style = (shapeTypeMap (pyLower v)).getD (pyLower v)) ∧
    (∀ style, extract_style_value style ("shape".toList) = some [] →
      extract_shape_type style = extract_shape_type_unkeyed style) ∧
    (∀ style, (extract_style_value style ("shape".toList) = none ∨
        extract_style_value style ("shape".toList) = some []) →
      pyLower (pyStrip ((pySplitChar ';' style).headD [])) ≠ "swimlane".toList →
      shapeTypeMap (pyLower (pyStrip ((pySplitChar ';' style).headD []))) = none →
      pyLower (pyStrip ((pySplitChar ';' style).headD [])) ≠ "rhombus".toList →
      pyLower (pyStrip ((pySplitChar ';' style).headD [])) ≠ "process".toList →
      extract_shape_type style = "rectangle".toList) := by
  have hunk : ∀ style,
      pyLower (pyStrip ((pySplitChar ';' style).headD [])) ≠ "swimlane".toList →
      shapeTypeMap (pyLower (pyStrip ((pySplitChar ';' style).headD []))) = none →
      pyLower (pyStrip ((pySplitChar ';' style).headD [])) ≠ "rhombus".toList →
      pyLower (pyStrip ((pySplitChar ';' style).headD [])) ≠ "process".toList →
      extract_shape_type_unkeyed style = "rectangle".toList := by
    intro style hsw hmap hrh hpr
    by_cases hs : style = []
    · subst hs
      rfl
    · unfold extract_shape_type_unkeyed
      rw [if_pos hs]
      dsimp only
      rw [if_neg hsw, hmap]
      dsimp only
      rw [if_neg hrh, if_neg hpr]
  have hemp : ¬ (([] : PyStr) ≠ []) := fun hc => hc rfl
  refine ⟨?_, ?_, ?_⟩
  · intro style v h hne hsw hpr
    have hbeq : (pyLower v == "process".toList) = false := by
      simpa using hpr
    unfold extract_shape_type
    rw [h]
    dsimp only
    rw [if_pos hne]
    rw [if_neg hsw]
    simp only [hbeq, Bool.false_and, Bool.false_eq_true, if_false]
    rcases hm : shapeTypeMap (pyLower v) with _ | n <;> simp [hm]
  · intro style h
    unfold extract_shape_type
    rw [h]
    dsimp only
    rw [if_neg hemp]
  · intro style h hsw hmap hrh hpr
    rcases h with h | h
    · unfold extract_shape_type
      rw [h]
      exact hunk style hsw hmap hrh hpr
    · unfold extract_shape_type
      rw [h]
      dsimp only
      rw [if_neg hemp]
      exact hunk style hsw hmap hrh hpr

/-- C8 witness: the amended theorem applied to concrete styles — the
explicit non-empty `shape=cloud` wins over the unkeyed first token
`ellipse`, an unrecognised first token yields `rectangle`, and an empty
`shape=` value falls through to the first token, yielding `ellipse`. -/
theorem extract_shape_type_priority_and_default_witness :
    extract_shape_type ("ellipse;shape=cloud".toList) = "cloud".toList ∧
    extract_shape_type ("foo;bar=1".toList) = "rectangle".toList ∧
    extract_shape_type ("ellipse;shape=".toList) = "ellipse".toList := by
  refine ⟨?_, ?_, ?_⟩
  · have h := extract_shape_type_priority_and_default.1 ("ellipse;shape=cloud".toList)
      ("cloud".toList) (by decide) (by decide) (by decide) (by decide)
    rw [h]
    decide
  · exact extract_shape_type_priority_and_default.2.2 ("foo;bar=1".toList)
      (Or.inl (by decide)) (by decide) (by decide) (by decide) (by decide)
  · have h := extract_shape_type_priority_and_default.2.1 ("ellipse;shape=".toList) (by decide)
    rw [h]
    decide

/-- C9: a floating edge (no bound source or target shape) with both
explicit endpoints resolves to exactly `[source_point] + waypoints +
[target_point]` with no inference applied, and a floating edge without
both explicit endpoints and with fewer than two raw points is dropped
(no connector emitted). -/
theorem floating_connector_points (points_raw points_for_ports : List Pt)
    (sp tp : Pt) (style_str edge_style : PyStr) (is_elbow : Bool) (grid : Option ℝ) :
    extract_connector_points none none points_raw (some sp) (some tp) points_for_ports
        style_str edge_style is_elbow grid = some (sp :: points_raw ++ [tp]) ∧
    (∀ source_point target_point : Option Pt,
      source_point = none ∨ target_point = none →
      points_raw.length < 2 →
      extract_connector_points none none points_raw source_point target_point points_for_ports
        style_str edge_style is_elbow grid = none) := by
  constructor
  · rfl
  · intro source_point target_point hnone hlen
    have hlt := Nat.not_le.mpr hlen
    rcases source_point with _ | p
    · rcases target_point with _ | q <;>
        simp [extract_connector_points, hlt]
    · rcases target_point with _ | q
      · simp [extract_connector_points, hlt]
      · rcases hnone with h | h <;> exact absurd h (by simp)

/-- C9 witness: a concrete floating edge keeps `[sp] + waypoints + [tp]`
verbatim, and a concrete floating edge with one endpoint and a single
raw point is dropped. -/
theorem floating_connector_points_witness :
    extract_connector_points none none [((5 : ℝ), (6 : ℝ))] (some ((1 : ℝ), (2 : ℝ)))
        (some ((3 : ℝ), (4 : ℝ))) [] [] [] false none =
      some [((1 : ℝ), (2 : ℝ)), ((5 : ℝ), (6 : ℝ)), ((3 : ℝ), (4 : ℝ))] ∧
    extract_connector_points none none [((5 : ℝ), (6 : ℝ))] none (some ((3 : ℝ), (4 : ℝ)))
        [] [] [] false none = none := by
  constructor
  · exact (floating_connector_points [((5 : ℝ), (6 : ℝ))] [] ((1 : ℝ), (2 : ℝ))
      ((3 : ℝ), (4 : ℝ)) [] [] false none).1
  · exact (floating_connector_points [((5 : ℝ), (6 : ℝ))] [] ((1 : ℝ), (2 : ℝ))
      ((3 : ℝ), (4 : ℝ)) [] [] false none).2 none (some ((3 : ℝ), (4 : ℝ)))
      (Or.inl rfl) (by decide)

/-- C7 counterexample: a floating edge whose explicit source and target
points coincide is emitted with two identical consecutive points, so
"no two consecutive points are identical" fails on the code. -/
theorem connector_duplicate_consecutive_points :
    extract_connector_points none none [] (some ((1 : ℝ), (1 : ℝ))) (some ((1 : ℝ), (1 : ℝ)))
        [] [] [] false none = some [((1 : ℝ), (1 : ℝ)), ((1 : ℝ), (1 : ℝ))] ∧
    ¬ List.Chain' (· ≠ ·) [((1 : ℝ), (1 : ℝ)), ((1 : ℝ), (1 : ℝ))] := by
  constructor
  · rfl
  · simp

set_option maxHeartbeats 1000000 in
/-- Helper for C7: both one-bend candidate routes have at least two
points. -/
theorem build_default_orthogonal_points_length (s t : ShapeElement) (a b c d : ℝ) :
    2 ≤ (build_default_orthogonal_points s t a b c d).length := by
  unfold build_default_orthogonal_points
  dsimp only
  split_ifs <;>
    simp only [List.length_cons, List.length_nil] <;> omega

/-- Helper for C7: a list sandwiched between two pairs of endpoints has
at least two points. -/
theorem two_le_length_sandwich (a b c d : Pt) (l : List Pt) :
    2 ≤ ([a, b] ++ l ++ [c, d]).length := by
  simp only [List.length_append, List.length_cons, List.length_nil]
  omega

/-- Helper for C7: a list wrapped between two endpoints has at least two
points. -/
theorem two_le_length_mid (a b : Pt) (l : List Pt) :
    2 ≤ ([a] ++ l ++ [b]).length := by
  simp only [List.length_append, List.length_cons, List.length_nil]
  omega

set_option maxHeartbeats 1000000 in
/-- Helper for C7: the port-based arm stitches at least two points. -/
theorem resolve_port_based_points_length
    (s t : ShapeElement) (praw pports : List Pt)
    (hints : Option ℝ × Option ℝ × Option ℝ × Option ℝ)
    (e1 e2 e3 e4 : Option ℝ) (d1 d2 d3 d4 : ℝ) (es : PyStr) (elb : Bool) :
    2 ≤ (resolve_port_based_points s t praw pports hints e1 e2 e3 e4 d1 d2 d3 d4 es elb).1.length := by
  unfold resolve_port_based_points
  dsimp only
  split
  · exact Nat.le_refl 2
  · split
    · exact two_le_length_sandwich _ _ _ _ _
    · exact two_le_length_mid _ _ _

set_option maxHeartbeats 1000000 in
/-- Helper for C7: the orthogonal fix-up never shortens a two-point
polyline below two points. -/
theorem ensure_orthogonal_route_length (p1 p2 : Pt)
    (e1 e2 e3 e4 : Option ℝ) (grid : Option ℝ) :
    2 ≤ (ensure_orthogonal_route_respects_ports [p1, p2] e1 e2 e3 e4 grid).length := by
  unfold ensure_orthogonal_route_respects_ports
  dsimp only
  split_ifs <;>
    simp only [List.length_cons, List.length_nil] <;> omega

/-- Helper for C7: the orthogonal fix-up of any two-point polyline keeps
at least two points. -/
theorem ensure_orthogonal_route_length_of_two (L : List Pt)
    (e1 e2 e3 e4 : Option ℝ) (grid : Option ℝ) (hL : L.length = 2) :
    2 ≤ (ensure_orthogonal_route_respects_ports L e1 e2 e3 e4 grid).length := by
  rcases L with _ | ⟨p1, _ | ⟨p2, _ | ⟨p3, rest⟩⟩⟩
  · simp at hL
  · simp at hL
  · exact ensure_orthogonal_route_length p1 p2 e1 e2 e3 e4 grid
  · simp only [List.length_cons] at hL
    omega

set_option maxHeartbeats 1000000 in
/-- Helper for C7: the main dispatch produces at least two points. -/
theorem resolve_main_points_length
    (s t : ShapeElement) (praw pports : List Pt)
    (hints : Option ℝ × Option ℝ × Option ℝ × Option ℝ)
    (e1 e2 e3 e4 : Option ℝ) (d1 d2 d3 d4 : ℝ) (es : PyStr) (elb : Bool) :
    2 ≤ (resolve_main_points s t praw pports hints e1 e2 e3 e4 d1 d2 d3 d4 es elb).1.length := by
  unfold resolve_main_points
  dsimp only
  split
  · exact build_default_orthogonal_points_length s t d1 d2 d3 d4
  · split
    · rename_i pts heq
      split_ifs at heq with hc
      rcases Option.map_eq_some'.mp heq with ⟨pr, -, hpr⟩
      simp [← hpr]
    · exact resolve_port_based_points_length s t praw pports hints e1 e2 e3 e4 d1 d2 d3 d4 es elb

set_option maxHeartbeats 1000000 in
/-- Helper for C7: the full resolver produces at least two points. -/
theorem resolve_connector_points_length
    (s t : ShapeElement) (praw pports : List Pt) (sp tp : Option Pt)
    (style_str edge_style : PyStr) (elb : Bool) (grid : Option ℝ) :
    2 ≤ (resolve_connector_points s t praw pports sp tp style_str edge_style elb grid).length := by
  unfold resolve_connector_points
  dsimp only
  split
  · rename_i h
    exact ensure_orthogonal_route_length_of_two _ _ _ _ _ grid h.2
  · exact resolve_main_points_length s t praw pports _ _ _ _ _ _ _ _ _ edge_style elb

/-- C7 (amended): every connector emitted by extraction has at least two
points.  (The claim's second clause — no two consecutive identical
points — fails on the code; see the counterexample: extraction performs
no deduplication, collinear-point simplification lives downstream in
the renderer.) -/
theorem connector_points_at_least_two
    (source_shape target_shape : Option ShapeElement)
    (points_raw : List Pt) (source_point target_point : Option Pt)
    (points_for_ports : List Pt) (style_str edge_style : PyStr)
    (is_elbow : Bool) (grid : Option ℝ) (pts : List Pt)
    (h : extract_connector_points source_shape target_shape points_raw source_point target_point
      points_for_ports style_str edge_style is_elbow grid = some pts) :
    2 ≤ pts.length := by
  rcases source_shape with _ | s <;> rcases target_shape with _ | t
  case some.some =>
    have hpts : pts = resolve_connector_points s t points_raw points_for_ports
        source_point target_point style_str edge_style is_elbow grid := by
      have := h.symm
      simpa [extract_connector_points] using this
    rw [hpts]
    exact resolve_connector_points_length s t points_raw points_for_ports
      source_point target_point style_str edge_style is_elbow grid
  all_goals {
    rcases source_point with _ | sp <;> rcases target_point with _ | tp <;>
      simp only [extract_connector_points] at h
    case some.some =>
      rw [Option.some_inj] at h
      subst h
      simp only [List.length_cons, List.length_append, List.length_nil]
      omega
    all_goals {
      split_ifs at h with hlen
      rw [Option.some_inj] at h
      subst h
      exact hlen
    }
  }

/-- C7 witness: the length theorem applied to a concrete floating edge
with two distinct stored endpoints. -/
theorem connector_points_at_least_two_witness :
    extract_connector_points none none [] (some ((0 : ℝ), (0 : ℝ))) (some ((7 : ℝ), (8 : ℝ)))
        [] [] [] false none = some [((0 : ℝ), (0 : ℝ)), ((7 : ℝ), (8 : ℝ))] ∧
    2 ≤ [((0 : ℝ), (0 : ℝ)), ((7 : ℝ), (8 : ℝ))].length :=
  ⟨rfl, connector_points_at_least_two none none [] (some ((0 : ℝ), (0 : ℝ)))
    (some ((7 : ℝ), (8 : ℝ))) [] [] [] false none _ rfl⟩

/-- Helper for C3: translating every entry of a fold by `c` translates
the minimum by `c`. -/
theorem foldl_min_map_add (c : ℝ) (l : List ℝ) : ∀ a : ℝ,
    (l.map (fun x => x + c)).foldl min (a + c) = l.foldl min a + c := by
  induction l with
  | nil => intro a; rfl
  | cons x xs ih =>
    intro a
    simp only [List.map_cons, List.foldl_cons, min_add_add_right]
    exact ih (min a x)

/-- Helper for C3: translating every entry of a fold by `c` translates
the maximum by `c`. -/
theorem foldl_max_map_add (c : ℝ) (l : List ℝ) : ∀ a : ℝ,
    (l.map (fun x => x + c)).foldl max (a + c) = l.foldl max a + c := by
  induction l with
  | nil => intro a; rfl
  | cons x xs ih =>
    intro a
    simp only [List.map_cons, List.foldl_cons, max_add_add_right]
    exact ih (max a x)

/-- Helper for C3: translating one element translates its bounding box. -/
theorem get_element_bounds_translate (e : BaseElem) (dx dy : ℝ) :
    get_element_bounds
      { e with
        x := e.x + dx
        y := e.y + dy
        points := e.points.map (fun p => (p.1 + dx, p.2 + dy)) } =
      ((get_element_bounds e).1 + dx, (get_element_bounds e).2.1 + dy,
       (get_element_bounds e).2.2.1 + dx, (get_element_bounds e).2.2.2 + dy) := by
  unfold get_element_bounds
  rcases e with ⟨x, y, w, h, hp, pts⟩
  rcases pts with _ | ⟨p, ps⟩
  · simp only []
    by_cases hb : hp = true
    · simp [hb, min_add_add_right, max_add_add_right]
      constructor
      · ring_nf
        rw [show x + dx + w = (x + w) + dx by ring, min_add_add_right]
        ring
      constructor
      · rw [show y + dy + h = (y + h) + dy by ring, min_add_add_right]
      constructor
      · rw [show x + dx + w = (x + w) + dx by ring, max_add_add_right]
      · rw [show y + dy + h = (y + h) + dy by ring, max_add_add_right]
    · simp [hb, min_add_add_right, max_add_add_right]
      constructor
      · rw [show x + dx + w = (x + w) + dx by ring, min_add_add_right]
      constructor
      · rw [show y + dy + h = (y + h) + dy by ring, min_add_add_right]
      constructor
      · rw [show x + dx + w = (x + w) + dx by ring, max_add_add_right]
      · rw [show y + dy + h = (y + h) + dy by ring, max_add_add_right]
  · by_cases hb : hp = true
    · have h1 : (Prod.fst ∘ fun q : Pt => ((q.1 + dx, q.2 + dy) : Pt)) =
          ((fun v => v + dx) ∘ Prod.fst) := rfl
      have h2 : (Prod.snd ∘ fun q : Pt => ((q.1 + dx, q.2 + dy) : Pt)) =
          ((fun v => v + dy) ∘ Prod.snd) := rfl
      simp only [hb, List.map_cons, List.map_map, List.min?, List.max?, Option.getD_some,
        ne_eq, reduceCtorEq, not_false_eq_true, and_self, if_pos, true_and, if_true]
      simp only [h1, h2, ← List.map_map, Prod.mk.injEq]
      exact ⟨foldl_min_map_add dx (ps.map Prod.fst) p.1,
        foldl_min_map_add dy (ps.map Prod.snd) p.2,
        foldl_max_map_add dx (ps.map Prod.fst) p.1,
        foldl_max_map_add dy (ps.map Prod.snd) p.2⟩
    · simp [hb, min_add_add_right, max_add_add_right]
      constructor
      · rw [show x + dx + w = (x + w) + dx by ring, min_add_add_right]
      constructor
      · rw [show y + dy + h = (y + h) + dy by ring, min_add_add_right]
      constructor
      · rw [show x + dx + w = (x + w) + dx by ring, max_add_add_right]
      · rw [show y + dy + h = (y + h) + dy by ring, max_add_add_right]

/-- Helper for C3: translating every element translates the combined
bounding box. -/
theorem get_elements_bounds_translate (es : List BaseElem) (dx dy : ℝ) :
    get_elements_bounds (es.map (fun e =>
      { e with
        x := e.x + dx
        y := e.y + dy
        points := e.points.map (fun p => (p.1 + dx, p.2 + dy)) })) =
      (get_elements_bounds es).map
        (fun b => (b.1 + dx, b.2.1 + dy, b.2.2.1 + dx, b.2.2.2 + dy)) := by
  unfold get_elements_bounds
  suffices h : ∀ (l : List BaseElem) (acc : Option (ℝ × ℝ × ℝ × ℝ)),
      ((l.map (fun e =>
        { e with
          x := e.x + dx
          y := e.y + dy
          points := e.points.map (fun p => (p.1 + dx, p.2 + dy)) })).foldl
        (fun acc e =>
          let b := get_element_bounds e
          match acc with
          | none => some b
          | some a => some (min a.1 b.1, min a.2.1 b.2.1, max a.2.2.1 b.2.2.1, max a.2.2.2 b.2.2.2))
        (acc.map (fun b => (b.1 + dx, b.2.1 + dy, b.2.2.1 + dx, b.2.2.2 + dy)))) =
      (l.foldl
        (fun acc e =>
          let b := get_element_bounds e
          match acc with
          | none => some b
          | some a => some (min a.1 b.1, min a.2.1 b.2.1, max a.2.2.1 b.2.2.1, max a.2.2.2 b.2.2.2))
        acc).map (fun b => (b.1 + dx, b.2.1 + dy, b.2.2.1 + dx, b.2.2.2 + dy)) by
    simpa using h es none
  intro l
  induction l with
  | nil => intro acc; rfl
  | cons e rest ih =>
    intro acc
    simp only [List.map_cons, List.foldl_cons]
    have hstep :
        (let b := get_element_bounds
          { e with
            x := e.x + dx
            y := e.y + dy
            points := e.points.map (fun p => (p.1 + dx, p.2 + dy)) }
         match acc.map (fun b => (b.1 + dx, b.2.1 + dy, b.2.2.1 + dx, b.2.2.2 + dy)) with
         | none => some b
         | some a => some (min a.1 b.1, min a.2.1 b.2.1, max a.2.2.1 b.2.2.1, max a.2.2.2 b.2.2.2)) =
        ((let b := get_element_bounds e
          match acc with
          | none => some b
          | some a =>
            some (min a.1 b.1, min a.2.1 b.2.1, max a.2.2.1 b.2.2.1, max a.2.2.2 b.2.2.2)).map
          (fun b : ℝ × ℝ × ℝ × ℝ => (b.1 + dx, b.2.1 + dy, b.2.2.1 + dx, b.2.2.2 + dy))) := by
      rcases acc with _ | a
      · simp only [Option.map_none', get_element_bounds_translate, Option.map_some']
      · simp only [Option.map_some', get_element_bounds_translate]
        simp only [min_add_add_right, max_add_add_right]
    rw [hstep]
    exact ih _

/-- Helper for C3: a zero translation is the identity. -/
theorem apply_translation_zero (es : List BaseElem) : apply_translation es 0 0 = es := by
  unfold apply_translation
  rw [if_pos ⟨rfl, rfl⟩]

/-- Helper for C3: a non-zero translation maps every element. -/
theorem apply_translation_ne (es : List BaseElem) (dx dy : ℝ) (h : ¬(dx = 0 ∧ dy = 0)) :
    apply_translation es dx dy = es.map (fun e =>
      { e with
        x := e.x + dx
        y := e.y + dy
        points := e.points.map (fun p => (p.1 + dx, p.2 + dy)) }) := by
  unfold apply_translation
  rw [if_neg h]

/-- Helper for C3: normalization without a page size is the identity. -/
theorem maybe_normalize_page_offset_no_page (es : List BaseElem) (pw ph : Option ℝ)
    (h : pw = none ∨ ph = none) :
    maybe_normalize_page_offset es pw ph = es := by
  unfold maybe_normalize_page_offset
  by_cases hes : es.isEmpty
  · rw [if_pos hes]
  · rw [if_neg hes]
    rcases h with h | h <;> subst h
    · rfl
    · cases pw <;> rfl

/-- Helper for C3: the unfolded form of a normalization run with a page
size and a non-empty element list. -/
theorem maybe_normalize_page_offset_eq (es : List BaseElem) (pw ph : ℝ)
    (hes : ¬ es.isEmpty = true) (b : ℝ × ℝ × ℝ × ℝ)
    (hb : get_elements_bounds es = some b) :
    maybe_normalize_page_offset es (some pw) (some ph) =
      (if b.2.2.1 < 0 ∨ b.2.2.2 < 0 ∨ b.1 > pw ∨ b.2.1 > ph then
        apply_translation es
          (if b.2.2.1 - b.1 ≤ pw then (pw - (b.2.2.1 - b.1)) / 2 - b.1 else -b.1)
          (if b.2.2.2 - b.2.1 ≤ ph then (ph - (b.2.2.2 - b.2.1)) / 2 - b.2.1 else -b.2.1)
      else es) := by
  unfold maybe_normalize_page_offset
  rw [if_neg hes]
  simp only [hb]

/-- C3: page-offset normalization is idempotent — running the pass a
second time on the output of the first run changes nothing, for every
element list and page size. -/
theorem maybe_normalize_page_offset_idempotent (es : List BaseElem) (pw ph : Option ℝ) :
    maybe_normalize_page_offset (maybe_normalize_page_offset es pw ph) pw ph =
      maybe_normalize_page_offset es pw ph := by
  rcases pw with _ | pw
  · rw [maybe_normalize_page_offset_no_page es none ph (Or.inl rfl),
      maybe_normalize_page_offset_no_page es none ph (Or.inl rfl)]
  rcases ph with _ | ph
  · rw [maybe_normalize_page_offset_no_page es (some pw) none (Or.inr rfl),
      maybe_normalize_page_offset_no_page es (some pw) none (Or.inr rfl)]
  by_cases hes : es.isEmpty = true
  · have h1 : maybe_normalize_page_offset es (some pw) (some ph) = es := by
      unfold maybe_normalize_page_offset
      rw [if_pos hes]
    rw [h1, h1]
  rcases hb : get_elements_bounds es with _ | b
  · have h1 : maybe_normalize_page_offset es (some pw) (some ph) = es := by
      unfold maybe_normalize_page_offset
      rw [if_neg hes]
      simp only [hb]
    rw [h1, h1]
  have h1 := maybe_normalize_page_offset_eq es pw ph hes b hb
  by_cases htrig : b.2.2.1 < 0 ∨ b.2.2.2 < 0 ∨ b.1 > pw ∨ b.2.1 > ph
  · rw [if_pos htrig] at h1
    set ox : ℝ := if b.2.2.1 - b.1 ≤ pw then (pw - (b.2.2.1 - b.1)) / 2 - b.1 else -b.1 with hox
    set oy : ℝ := if b.2.2.2 - b.2.1 ≤ ph then (ph - (b.2.2.2 - b.2.1)) / 2 - b.2.1 else -b.2.1
      with hoy
    by_cases hzero : ox = 0 ∧ oy = 0
    · have h2 : maybe_normalize_page_offset es (some pw) (some ph) = es := by
        rw [h1, hzero.1, hzero.2, apply_translation_zero]
      rw [h2, h2]
    · have h2 : maybe_normalize_page_offset es (some pw) (some ph) = es.map (fun e =>
          { e with
            x := e.x + ox
            y := e.y + oy
            points := e.points.map (fun p => (p.1 + ox, p.2 + oy)) }) := by
        rw [h1, apply_translation_ne es ox oy hzero]
      rw [h2]
      have hes2 : ¬ (es.map (fun e =>
          ({ e with
            x := e.x + ox
            y := e.y + oy
            points := e.points.map (fun p => (p.1 + ox, p.2 + oy)) } : BaseElem))).isEmpty = true := by
        cases es
        · exact absurd rfl hes
        · simp
      have hb2 : get_elements_bounds (es.map (fun e =>
          { e with
            x := e.x + ox
            y := e.y + oy
            points := e.points.map (fun p => (p.1 + ox, p.2 + oy)) })) =
          some (b.1 + ox, b.2.1 + oy, b.2.2.1 + ox, b.2.2.2 + oy) := by
        rw [get_elements_bounds_translate, hb]
        rfl
      rw [maybe_normalize_page_offset_eq _ pw ph hes2 _ hb2]
      have hwidth : (b.1 + ox, b.2.1 + oy, b.2.2.1 + ox, b.2.2.2 + oy).2.2.1 -
          (b.1 + ox, b.2.1 + oy, b.2.2.1 + ox, b.2.2.2 + oy).1 = b.2.2.1 - b.1 := by
        ring
      have hheight : (b.1 + ox, b.2.1 + oy, b.2.2.1 + ox, b.2.2.2 + oy).2.2.2 -
          (b.1 + ox, b.2.1 + oy, b.2.2.1 + ox, b.2.2.2 + oy).2.1 = b.2.2.2 - b.2.1 := by
        ring
      have hox2 : (if (b.1 + ox, b.2.1 + oy, b.2.2.1 + ox, b.2.2.2 + oy).2.2.1 -
            (b.1 + ox, b.2.1 + oy, b.2.2.1 + ox, b.2.2.2 + oy).1 ≤ pw then
          (pw - ((b.1 + ox, b.2.1 + oy, b.2.2.1 + ox, b.2.2.2 + oy).2.2.1 -
            (b.1 + ox, b.2.1 + oy, b.2.2.1 + ox, b.2.2.2 + oy).1)) / 2 -
            (b.1 + ox, b.2.1 + oy, b.2.2.1 + ox, b.2.2.2 + oy).1
          else -(b.1 + ox, b.2.1 + oy, b.2.2.1 + ox, b.2.2.2 + oy).1) = 0 := by
        rw [hwidth]
        by_cases hw : b.2.2.1 - b.1 ≤ pw
        · rw [if_pos hw]
          rw [hox, if_pos hw]
          dsimp only
          ring
        · rw [if_neg hw]
          rw [hox, if_neg hw]
          dsimp only
          ring
      have hoy2 : (if (b.1 + ox, b.2.1 + oy, b.2.2.1 + ox, b.2.2.2 + oy).2.2.2 -
            (b.1 + ox, b.2.1 + oy, b.2.2.1 + ox, b.2.2.2 + oy).2.1 ≤ ph then
          (ph - ((b.1 + ox, b.2.1 + oy, b.2.2.1 + ox, b.2.2.2 + oy).2.2.2 -
            (b.1 + ox, b.2.1 + oy, b.2.2.1 + ox, b.2.2.2 + oy).2.1)) / 2 -
            (b.1 + ox, b.2.1 + oy, b.2.2.1 + ox, b.2.2.2 + oy).2.1
          else -(b.1 + ox, b.2.1 + oy, b.2.2.1 + ox, b.2.2.2 + oy).2.1) = 0 := by
        rw [hheight]
        by_cases hh : b.2.2.2 - b.2.1 ≤ ph
        · rw [if_pos hh]
          rw [hoy, if_pos hh]
          dsimp only
          ring
        · rw [if_neg hh]
          rw [hoy, if_neg hh]
          dsimp only
          ring
      rw [hox2, hoy2]
      split_ifs
      · exact apply_translation_zero _
      · rfl
  · rw [if_neg htrig] at h1
    rw [h1, h1]

/-- C4 counterexample: a vertex cell whose geometry parses to width 0
and height 0 (all attributes defaulting to "0") is NOT excluded — the
extracted model contains a shape with `w = 0` and `h = 0`, so the
invariant `w > 0 ∧ h > 0` fails on the code. -/
theorem zero_size_shape_is_extracted :
    extract_shapes_with_z
        [⟨some ("a".toList), some ("1".toList), true, false, [], some {}⟩] =
      [⟨some ("a".toList), 0, 0, 0⟩] ∧
    ¬ ((0 : ℚ) > 0 ∧ (0 : ℚ) > 0) := by
  constructor
  · decide
  · decide

/-- C4 (amended): every shape present in the extracted output model
comes from a vertex cell with a parseable geometry and carries exactly
the parsed width and height; a vertex whose geometry is missing or
unparseable is excluded — but no positivity check is applied to `w`/`h`. -/
theorem extract_shapes_geometry_gate (cells : List MxCell) (s : ShapeRec)
    (hs : s ∈ extract_shapes_with_z cells) :
    ∃ c ∈ cells, c.vertex = true ∧
      ∃ x y w h, parse_geometry_from_cell c = some (x, y, w, h) ∧
        s.id = c.id ∧ s.w = w ∧ s.h = h := by
  rcases List.mem_filterMap.mp hs with ⟨c, hc, hmap⟩
  have hv : c.vertex = true := by
    by_contra hv
    rw [if_neg hv] at hmap
    exact absurd hmap (by simp)
  rw [if_pos hv] at hmap
  rcases Option.map_eq_some'.mp hmap with ⟨s0, hs0, rfl⟩
  unfold extract_shape at hs0
  rcases hparse : parse_geometry_from_cell c with _ | g
  · rw [hparse] at hs0
    exact absurd hs0 (by simp)
  · rw [hparse] at hs0
    rw [Option.some_inj] at hs0
    subst hs0
    exact ⟨c, hc, hv, g.1, g.2.1, g.2.2.1, g.2.2.2, hparse, rfl, rfl, rfl⟩

/-- C4 witness: the amended theorem applied to the concrete one-vertex
page whose geometry defaults to a zero-size rectangle. -/
theorem extract_shapes_geometry_gate_witness :
    (⟨some ("a".toList), 0, 0, 0⟩ : ShapeRec) ∈ extract_shapes_with_z
        [⟨some ("a".toList), some ("1".toList), true, false, [], some {}⟩] ∧
    (∃ c ∈ [(⟨some ("a".toList), some ("1".toList), true, false, [], some {}⟩ : MxCell)],
      c.vertex = true ∧
      ∃ x y w h, parse_geometry_from_cell c = some (x, y, w, h) ∧
        (⟨some ("a".toList), 0, 0, 0⟩ : ShapeRec).id = c.id ∧
        (⟨some ("a".toList), 0, 0, 0⟩ : ShapeRec).w = w ∧
        (⟨some ("a".toList), 0, 0, 0⟩ : ShapeRec).h = h) :=
  ⟨by decide, extract_shapes_geometry_gate _ _ (by decide)⟩

set_option maxHeartbeats 1000000 in
/-- Helper for C1: with misaligned centers, the default orthogonal
router reduces to the dominant-axis selection between the H-first and
V-first candidates (ties by total L1 length). -/
theorem build_default_eq_candidates (s t : ShapeElement) (a b c d : ℝ)
    (hdy : ¬ |t.y + t.h / 2 - (s.y + s.h / 2)| ≤ 1e-6)
    (hdx : ¬ |t.x + t.w / 2 - (s.x + s.w / 2)| ≤ 1e-6) :
    build_default_orthogonal_points s t a b c d =
      (if |t.x + t.w / 2 - (s.x + s.w / 2)| > |t.y + t.h / 2 - (s.y + s.h / 2)| then
        (hv_candidate s t a b c d).1
      else if |t.y + t.h / 2 - (s.y + s.h / 2)| > |t.x + t.w / 2 - (s.x + s.w / 2)| then
        (vh_candidate s t a b c d).1
      else if (hv_candidate s t a b c d).2 ≤ (vh_candidate s t a b c d).2 then
        (hv_candidate s t a b c d).1
      else (vh_candidate s t a b c d).1) := by
  unfold build_default_orthogonal_points hv_candidate vh_candidate
  dsimp only
  rw [if_neg hdy, if_neg hdx]

/-- Helper for C1: the fix-up keeps a two-point polyline whose endpoints
already share an axis. -/
theorem ensure_orthogonal_route_pair (p1 p2 : Pt) (e1 e2 e3 e4 : Option ℝ) (grid : Option ℝ)
    (h : p1.1 = p2.1 ∨ p1.2 = p2.2) :
    ensure_orthogonal_route_respects_ports [p1, p2] e1 e2 e3 e4 grid = [p1, p2] := by
  unfold ensure_orthogonal_route_respects_ports
  dsimp only
  rw [if_pos h]

/-- Helper for C1: the fix-up only rewrites two-point polylines; a
three-point route passes through unchanged. -/
theorem ensure_orthogonal_route_triple (p1 q p2 : Pt) (e1 e2 e3 e4 : Option ℝ)
    (grid : Option ℝ) :
    ensure_orthogonal_route_respects_ports [p1, q, p2] e1 e2 e3 e4 grid = [p1, q, p2] := rfl

set_option maxHeartbeats 1000000 in
/-- Helper for C1: the orthogonal fix-up leaves the H-first candidate
unchanged (the two-point degenerate form already shares an axis, and a
three-point route is not touched). -/
theorem ensure_on_hv_candidate (s t : ShapeElement) (a b c d : ℝ)
    (e1 e2 e3 e4 : Option ℝ) (grid : Option ℝ) :
    ensure_orthogonal_route_respects_ports (hv_candidate s t a b c d).1 e1 e2 e3 e4 grid =
      (hv_candidate s t a b c d).1 := by
  unfold hv_candidate
  dsimp only
  set p1a := calculate_boundary_point s (if t.x + t.w / 2 ≥ s.x + s.w / 2 then (1 : ℝ) else 0)
    0.5 a b with hp1
  set p2a := calculate_boundary_point t 0.5 (if s.y + s.h / 2 ≥ t.y + t.h / 2 then (1 : ℝ) else 0)
    c d with hp2
  split_ifs with h
  · exact ensure_orthogonal_route_pair p1a p2a e1 e2 e3 e4 grid h
  · exact ensure_orthogonal_route_triple p1a (p2a.1, p1a.2) p2a e1 e2 e3 e4 grid

set_option maxHeartbeats 1000000 in
/-- Helper for C1: the orthogonal fix-up leaves the V-first candidate
unchanged. -/
theorem ensure_on_vh_candidate (s t : ShapeElement) (a b c d : ℝ)
    (e1 e2 e3 e4 : Option ℝ) (grid : Option ℝ) :
    ensure_orthogonal_route_respects_ports (vh_candidate s t a b c d).1 e1 e2 e3 e4 grid =
      (vh_candidate s t a b c d).1 := by
  unfold vh_candidate
  dsimp only
  set p1b := calculate_boundary_point s 0.5 (if t.y + t.h / 2 ≥ s.y + s.h / 2 then (1 : ℝ) else 0)
    a b with hp1
  set p2b := calculate_boundary_point t (if s.x + s.w / 2 ≥ t.x + t.w / 2 then (1 : ℝ) else 0)
    0.5 c d with hp2
  split_ifs with h
  · exact ensure_orthogonal_route_pair p1b p2b e1 e2 e3 e4 grid h
  · exact ensure_orthogonal_route_triple p1b (p1b.1, p2b.2) p2b e1 e2 e3 e4 grid

set_option maxHeartbeats 1000000 in
/-- C1: for an orthogonal connector between two bound shapes with no
waypoints, no explicit exit/entry ports and non-elbow style, whose
centers are misaligned beyond epsilon on both axes, the router evaluates
the horizontal-first and vertical-first one-bend routes and returns the
one whose dominant direction matches the larger of the center deltas,
breaking exact ties by shorter total L1 length. -/
theorem orthogonal_default_route_dominant_axis
    (s t : ShapeElement) (pports : List Pt) (sp tp : Option Pt)
    (style_str : PyStr) (grid : Option ℝ)
    (hx : extract_style_float style_str ("exitX".toList) none = none)
    (hy : extract_style_float style_str ("exitY".toList) none = none)
    (hnx : extract_style_float style_str ("entryX".toList) none = none)
    (hny : extract_style_float style_str ("entryY".toList) none = none)
    (hdx : (1e-6 : ℝ) < |t.x + t.w / 2 - (s.x + s.w / 2)|)
    (hdy : (1e-6 : ℝ) < |t.y + t.h / 2 - (s.y + s.h / 2)|) :
    resolve_connector_points s t [] pports sp tp style_str ("orthogonal".toList) false grid =
      (let exit_dx : ℝ := ((extract_style_float style_str ("exitDx".toList) (some 0)).getD 0 : ℚ)
       let exit_dy : ℝ := ((extract_style_float style_str ("exitDy".toList) (some 0)).getD 0 : ℚ)
       let entry_dx : ℝ := ((extract_style_float style_str ("entryDx".toList) (some 0)).getD 0 : ℚ)
       let entry_dy : ℝ := ((extract_style_float style_str ("entryDy".toList) (some 0)).getD 0 : ℚ)
       if |t.x + t.w / 2 - (s.x + s.w / 2)| > |t.y + t.h / 2 - (s.y + s.h / 2)| then
         (hv_candidate s t exit_dx exit_dy entry_dx entry_dy).1
       else if |t.y + t.h / 2 - (s.y + s.h / 2)| > |t.x + t.w / 2 - (s.x + s.w / 2)| then
         (vh_candidate s t exit_dx exit_dy entry_dx entry_dy).1
       else if (hv_candidate s t exit_dx exit_dy entry_dx entry_dy).2 ≤
           (vh_candidate s t exit_dx exit_dy entry_dx entry_dy).2 then
         (hv_candidate s t exit_dx exit_dy entry_dx entry_dy).1
       else (vh_candidate s t exit_dx exit_dy entry_dx entry_dy).1) := by
  have hdy' : ¬ |t.y + t.h / 2 - (s.y + s.h / 2)| ≤ 1e-6 := not_le.mpr hdy
  have hdx' : ¬ |t.x + t.w / 2 - (s.x + s.w / 2)| ≤ 1e-6 := not_le.mpr hdx
  unfold resolve_connector_points
  dsimp only
  rw [hx, hy, hnx, hny]
  simp only [Option.map_none']
  unfold resolve_main_points
  have hcond : ("orthogonal".toList = "orthogonal".toList ∧ ([] : List Pt) = [] ∧
      (none : Option ℝ) = none ∧ (none : Option ℝ) = none ∧ (none : Option ℝ) = none ∧
      (none : Option ℝ) = none ∧ false = false) :=
    ⟨rfl, rfl, rfl, rfl, rfl, rfl, rfl⟩
  rw [if_pos hcond]
  dsimp only
  rw [build_default_eq_candidates s t _ _ _ _ hdy' hdx']
  set exit_dx : ℝ := (((extract_style_float style_str ("exitDx".toList) (some 0)).getD 0 : ℚ) : ℝ)
  set exit_dy : ℝ := (((extract_style_float style_str ("exitDy".toList) (some 0)).getD 0 : ℚ) : ℝ)
  set entry_dx : ℝ :=
    (((extract_style_float style_str ("entryDx".toList) (some 0)).getD 0 : ℚ) : ℝ)
  set entry_dy : ℝ :=
    (((extract_style_float style_str ("entryDy".toList) (some 0)).getD 0 : ℚ) : ℝ)
  split_ifs
  all_goals
    first
    | rfl
    | rw [ensure_on_hv_candidate]
    | rw [ensure_on_vh_candidate]

set_option maxHeartbeats 1000000 in
/-- C1 witness: a concrete orthogonal edge between the rectangles
(0,0,40,30) and (100,50,40,30); the horizontal center delta (100)
dominates the vertical one (50), so the router returns the
horizontal-first route [(40,15),(120,15),(120,50)]. -/
theorem orthogonal_default_route_dominant_axis_witness :
    resolve_connector_points ⟨none, 0, 0, 40, 30, ("rectangle".toList)⟩
        ⟨none, 100, 50, 40, 30, ("rectangle".toList)⟩ [] [] none none ([] : PyStr)
        ("orthogonal".toList) false none =
      [((40 : ℝ), (15 : ℝ)), ((120 : ℝ), (15 : ℝ)), ((120 : ℝ), (50 : ℝ))] := by
  have habs1 : |(100 : ℝ) + 40 / 2 - (0 + 40 / 2)| = 100 := by
    rw [show (100 : ℝ) + 40 / 2 - (0 + 40 / 2) = 100 by norm_num]
    exact abs_of_nonneg (by norm_num)
  have habs2 : |(50 : ℝ) + 30 / 2 - (0 + 30 / 2)| = 50 := by
    rw [show (50 : ℝ) + 30 / 2 - (0 + 30 / 2) = 50 by norm_num]
    exact abs_of_nonneg (by norm_num)
  have h := orthogonal_default_route_dominant_axis
      ⟨none, 0, 0, 40, 30, ("rectangle".toList)⟩
      ⟨none, 100, 50, 40, 30, ("rectangle".toList)⟩
      [] none none ([] : PyStr) none rfl rfl rfl rfl
      (by dsimp only; rw [habs1]; norm_num)
      (by dsimp only; rw [habs2]; norm_num)
  rw [h]
  dsimp only
  rw [show extract_style_float ([] : PyStr) ("exitDx".toList) (some 0) = some (0 : ℚ) from rfl,
    show extract_style_float ([] : PyStr) ("exitDy".toList) (some 0) = some (0 : ℚ) from rfl,
    show extract_style_float ([] : PyStr) ("entryDx".toList) (some 0) = some (0 : ℚ) from rfl,
    show extract_style_float ([] : PyStr) ("entryDy".toList) (some 0) = some (0 : ℚ) from rfl]
  simp only [Option.getD_some, Rat.cast_zero]
  rw [habs1, habs2]
  rw [if_pos (by norm_num : (100 : ℝ) > 50)]
  norm_num [hv_candidate, calculate_boundary_point, boundary_point_rect]
  simp +decide

/-- The head-default minimum of a nonempty list of reals is a member and
a lower bound. -/
theorem min?_getD_spec (l : List ℝ) (h : ¬ l = []) :
    l.min?.getD 0 ∈ l ∧ ∀ r ∈ l, l.min?.getD 0 ≤ r := by
  obtain ⟨m, hm⟩ : ∃ m, l.min? = some m := by
    cases hl : l.min? with
    | none => exact absurd (List.min?_eq_none_iff.mp hl) h
    | some m => exact ⟨m, rfl⟩
  rw [hm]
  refine ⟨List.min?_mem (fun a b => min_choice a b) hm, ?_⟩
  exact (List.le_min?_iff (fun a b c => le_min_iff) hm).mp (le_refl m)

/-- The head-default maximum of a nonempty list of reals is a member and
an upper bound. -/
theorem max?_getD_spec (l : List ℝ) (h : ¬ l = []) :
    l.max?.getD 0 ∈ l ∧ ∀ r ∈ l, r ≤ l.max?.getD 0 := by
  obtain ⟨m, hm⟩ : ∃ m, l.max? = some m := by
    cases hl : l.max? with
    | none => exact absurd (List.max?_eq_none_iff.mp hl) h
    | some m => exact ⟨m, rfl⟩
  rw [hm]
  refine ⟨List.max?_mem (fun a b => max_choice a b) hm, ?_⟩
  exact (List.max?_le_iff (fun a b c => max_le_iff) hm).mp (le_refl m)

/-- When the centers are distinct, both filtered intersection lists are
nonempty and the parameters are ordered, `_natural_connector_endpoints`
returns the points at the smallest positive exit parameter and the
largest sub-1 entry parameter. -/
theorem natural_connector_endpoints_eq (s t : ShapeElement)
    (exit_ts entry_ts : List ℝ)
    (hexit : exit_ts = (segment_rect_intersection_t_values (s.x + s.w / 2) (s.y + s.h / 2)
        (t.x + t.w / 2) (t.y + t.h / 2) s).filter (fun r => decide ((1e-9 : ℝ) < r)))
    (hentry : entry_ts = (segment_rect_intersection_t_values (s.x + s.w / 2) (s.y + s.h / 2)
        (t.x + t.w / 2) (t.y + t.h / 2) t).filter (fun r => decide (r < 1 - 1e-9)))
    (hfar : ¬ (|t.x + t.w / 2 - (s.x + s.w / 2)| < 1e-9 ∧
        |t.y + t.h / 2 - (s.y + s.h / 2)| < 1e-9))
    (hex : ¬ exit_ts = []) (hen : ¬ entry_ts = [])
    (horder : ¬ (entry_ts.max?.getD 0 < exit_ts.min?.getD 0)) :
    natural_connector_endpoints s t =
      some ((s.x + s.w / 2 + exit_ts.min?.getD 0 * (t.x + t.w / 2 - (s.x + s.w / 2)),
             s.y + s.h / 2 + exit_ts.min?.getD 0 * (t.y + t.h / 2 - (s.y + s.h / 2))),
            (s.x + s.w / 2 + entry_ts.max?.getD 0 * (t.x + t.w / 2 - (s.x + s.w / 2)),
             s.y + s.h / 2 + entry_ts.max?.getD 0 * (t.y + t.h / 2 - (s.y + s.h / 2)))) := by
  unfold natural_connector_endpoints
  dsimp only
  rw [if_neg hfar]
  rw [← hexit, ← hentry]
  rw [if_neg (by push_neg; exact ⟨hex, hen⟩)]
  rw [if_neg horder]

/-- For a non-orthogonal edge with no waypoints, no explicit ports and
non-elbow style, `resolve_main_points` returns exactly the natural
endpoints. -/
theorem resolve_main_points_straight (source_shape target_shape : ShapeElement)
    (points_for_ports : List Pt) (hints : Option ℝ × Option ℝ × Option ℝ × Option ℝ)
    (exit_dx exit_dy entry_dx entry_dy : ℝ) (edge_style : PyStr)
    (hstyle : ¬ edge_style = ("orthogonal".toList))
    (pe pn : Pt)
    (hnat : natural_connector_endpoints source_shape target_shape = some (pe, pn)) :
    resolve_main_points source_shape target_shape [] points_for_ports hints
      none none none none exit_dx exit_dy entry_dx entry_dy edge_style false =
      ([pe, pn], (none, none, none, none)) := by
  unfold resolve_main_points
  have hc1 : ¬ (edge_style = ("orthogonal".toList) ∧ ([] : List Pt) = [] ∧
      (none : Option ℝ) = none ∧ (none : Option ℝ) = none ∧ (none : Option ℝ) = none ∧
      (none : Option ℝ) = none ∧ false = false) := fun hc => hstyle hc.1
  rw [if_neg hc1]
  dsimp only
  have hc2 : (edge_style ≠ ("orthogonal".toList) ∧ ([] : List Pt) = [] ∧
      (none : Option ℝ) = none ∧ (none : Option ℝ) = none ∧ (none : Option ℝ) = none ∧
      (none : Option ℝ) = none ∧ false = false) :=
    ⟨hstyle, rfl, rfl, rfl, rfl, rfl, rfl⟩
  rw [if_pos hc2, hnat]
  rfl

set_option maxHeartbeats 1000000 in
/-- C2: for a straight (non-orthogonal, non-elbow) connector between two
bound shapes with distinct centers, no waypoints and no explicit
exit/entry ports, when the filtered intersections of the center-to-center
segment with both rectangles are nonempty and ordered, the resolved
points are exactly the intersection at the smallest parameter above the
positive threshold on the source and the largest parameter below 1 on
the target, and neither endpoint is a rectangle center. -/
theorem straight_connector_natural_endpoints
    (s t : ShapeElement) (pports : List Pt) (sp tp : Option Pt)
    (style_str edge_style : PyStr) (grid : Option ℝ)
    (hx : extract_style_float style_str ("exitX".toList) none = none)
    (hy : extract_style_float style_str ("exitY".toList) none = none)
    (hnx : extract_style_float style_str ("entryX".toList) none = none)
    (hny : extract_style_float style_str ("entryY".toList) none = none)
    (hstyle : ¬ edge_style = ("orthogonal".toList))
    (exit_ts entry_ts : List ℝ)
    (hexit : exit_ts = (segment_rect_intersection_t_values (s.x + s.w / 2) (s.y + s.h / 2)
        (t.x + t.w / 2) (t.y + t.h / 2) s).filter (fun r => decide ((1e-9 : ℝ) < r)))
    (hentry : entry_ts = (segment_rect_intersection_t_values (s.x + s.w / 2) (s.y + s.h / 2)
        (t.x + t.w / 2) (t.y + t.h / 2) t).filter (fun r => decide (r < 1 - 1e-9)))
    (hfar : ¬ (|t.x + t.w / 2 - (s.x + s.w / 2)| < 1e-9 ∧
        |t.y + t.h / 2 - (s.y + s.h / 2)| < 1e-9))
    (hex : ¬ exit_ts = []) (hen : ¬ entry_ts = [])
    (horder : ¬ (entry_ts.max?.getD 0 < exit_ts.min?.getD 0)) :
    resolve_connector_points s t [] pports sp tp style_str edge_style false grid =
      [(s.x + s.w / 2 + exit_ts.min?.getD 0 * (t.x + t.w / 2 - (s.x + s.w / 2)),
        s.y + s.h / 2 + exit_ts.min?.getD 0 * (t.y + t.h / 2 - (s.y + s.h / 2))),
       (s.x + s.w / 2 + entry_ts.max?.getD 0 * (t.x + t.w / 2 - (s.x + s.w / 2)),
        s.y + s.h / 2 + entry_ts.max?.getD 0 * (t.y + t.h / 2 - (s.y + s.h / 2)))] ∧
    exit_ts.min?.getD 0 ∈ exit_ts ∧
    (∀ r ∈ exit_ts, exit_ts.min?.getD 0 ≤ r) ∧
    entry_ts.max?.getD 0 ∈ entry_ts ∧
    (∀ r ∈ entry_ts, r ≤ entry_ts.max?.getD 0) ∧
    (s.x + s.w / 2 + exit_ts.min?.getD 0 * (t.x + t.w / 2 - (s.x + s.w / 2)),
     s.y + s.h / 2 + exit_ts.min?.getD 0 * (t.y + t.h / 2 - (s.y + s.h / 2))) ≠
      (s.x + s.w / 2, s.y + s.h / 2) ∧
    (s.x + s.w / 2 + entry_ts.max?.getD 0 * (t.x + t.w / 2 - (s.x + s.w / 2)),
     s.y + s.h / 2 + entry_ts.max?.getD 0 * (t.y + t.h / 2 - (s.y + s.h / 2))) ≠
      (t.x + t.w / 2, t.y + t.h / 2) := by
  have hall1 : ∀ x ∈ exit_ts, (1e-9 : ℝ) < x := by
    intro x hxm
    rw [hexit] at hxm
    exact of_decide_eq_true (List.mem_filter.mp hxm).2
  have hall2 : ∀ x ∈ entry_ts, x < 1 - 1e-9 := by
    intro x hxm
    rw [hentry] at hxm
    exact of_decide_eq_true (List.mem_filter.mp hxm).2
  refine ⟨?_, (min?_getD_spec exit_ts hex).1, (min?_getD_spec exit_ts hex).2,
    (max?_getD_spec entry_ts hen).1, (max?_getD_spec entry_ts hen).2, ?_, ?_⟩
  · unfold resolve_connector_points
    dsimp only
    rw [hx, hy, hnx, hny]
    simp only [Option.map_none']
    rw [resolve_main_points_straight s t pports _ _ _ _ _ edge_style hstyle _ _
      (natural_connector_endpoints_eq s t exit_ts entry_ts hexit hentry hfar hex hen horder)]
    dsimp only
    split_ifs with hcc
    · exact absurd hcc.1 hstyle
    · rfl
  · intro heq
    have hpos := hall1 _ (min?_getD_spec exit_ts hex).1
    have hne0 : exit_ts.min?.getD 0 ≠ 0 :=
      ne_of_gt (lt_trans (show (0 : ℝ) < 1e-9 by norm_num) hpos)
    have h1 := congrArg Prod.fst heq
    have h2 := congrArg Prod.snd heq
    dsimp only at h1 h2
    have hdx0 : exit_ts.min?.getD 0 * (t.x + t.w / 2 - (s.x + s.w / 2)) = 0 := by
      linear_combination h1
    have hdy0 : exit_ts.min?.getD 0 * (t.y + t.h / 2 - (s.y + s.h / 2)) = 0 := by
      linear_combination h2
    rcases mul_eq_zero.mp hdx0 with h | hdx
    · exact hne0 h
    rcases mul_eq_zero.mp hdy0 with h | hdy
    · exact hne0 h
    exact hfar ⟨by rw [hdx, abs_zero]; norm_num, by rw [hdy, abs_zero]; norm_num⟩
  · intro heq
    have hlt := hall2 _ (max?_getD_spec entry_ts hen).1
    have hne1 : entry_ts.max?.getD 0 - 1 ≠ 0 := by
      intro hcon
      have : entry_ts.max?.getD 0 = 1 := by linarith
      rw [this] at hlt
      norm_num at hlt
    have h1 := congrArg Prod.fst heq
    have h2 := congrArg Prod.snd heq
    dsimp only at h1 h2
    have hdx0 : (entry_ts.max?.getD 0 - 1) * (t.x + t.w / 2 - (s.x + s.w / 2)) = 0 := by
      linear_combination h1
    have hdy0 : (entry_ts.max?.getD 0 - 1) * (t.y + t.h / 2 - (s.y + s.h / 2)) = 0 := by
      linear_combination h2
    rcases mul_eq_zero.mp hdx0 with h | hdx
    · exact hne1 h
    rcases mul_eq_zero.mp hdy0 with h | hdy
    · exact hne1 h
    exact hfar ⟨by rw [hdx, abs_zero]; norm_num, by rw [hdy, abs_zero]; norm_num⟩

set_option maxHeartbeats 1000000 in
/-- C2 witness: straight edge between the rectangles (0,0,40,30) and
(100,50,40,30); the center segment exits the source at (40,25) and
enters the target at (100,55), neither of which is a center. -/
theorem straight_connector_natural_endpoints_witness :
    resolve_connector_points ⟨none, 0, 0, 40, 30, ("rectangle".toList)⟩
        ⟨none, 100, 50, 40, 30, ("rectangle".toList)⟩ [] [] none none ([] : PyStr)
        ([] : PyStr) false none = [((40 : ℝ), (25 : ℝ)), ((100 : ℝ), (55 : ℝ))] := by
  have hone : ∀ x : ℝ, ((([x] : List ℝ).eraseDups).insertionSort (· ≤ ·)) = [x] := fun x => rfl
  have habs100 : |(120 : ℝ) - 20| = 100 := by
    rw [show (120 : ℝ) - 20 = 100 by norm_num]
    exact abs_of_nonneg (by norm_num)
  have habs50 : |(65 : ℝ) - 15| = 50 := by
    rw [show (65 : ℝ) - 15 = 50 by norm_num]
    exact abs_of_nonneg (by norm_num)
  have hsrc : segment_rect_intersection_t_values 20 15 120 65
      ⟨none, 0, 0, 40, 30, ("rectangle".toList)⟩ = [(1 / 5 : ℝ)] := by
    unfold segment_rect_intersection_t_values
    dsimp only
    rw [habs100, habs50]
    norm_num [min_def, max_def, hone]
  have htgt : segment_rect_intersection_t_values 20 15 120 65
      ⟨none, 100, 50, 40, 30, ("rectangle".toList)⟩ = [(4 / 5 : ℝ)] := by
    unfold segment_rect_intersection_t_values
    dsimp only
    rw [habs100, habs50]
    norm_num [min_def, max_def, hone]
  have h := straight_connector_natural_endpoints
      ⟨none, 0, 0, 40, 30, ("rectangle".toList)⟩ ⟨none, 100, 50, 40, 30, ("rectangle".toList)⟩
      [] none none ([] : PyStr) ([] : PyStr) none rfl rfl rfl rfl (by decide)
      [(1 / 5 : ℝ)] [(4 / 5 : ℝ)]
      (by
        dsimp only
        rw [show ((0 : ℝ) + 40 / 2) = 20 by norm_num, show ((0 : ℝ) + 30 / 2) = 15 by norm_num,
          show ((100 : ℝ) + 40 / 2) = 120 by norm_num,
          show ((50 : ℝ) + 30 / 2) = 65 by norm_num]
        rw [hsrc]
        simp only [List.filter_cons, List.filter_nil, decide_eq_true_eq]
        rw [if_pos (by norm_num : (1e-9 : ℝ) < 1 / 5)])
      (by
        dsimp only
        rw [show ((0 : ℝ) + 40 / 2) = 20 by norm_num, show ((0 : ℝ) + 30 / 2) = 15 by norm_num,
          show ((100 : ℝ) + 40 / 2) = 120 by norm_num,
          show ((50 : ℝ) + 30 / 2) = 65 by norm_num]
        rw [htgt]
        simp only [List.filter_cons, List.filter_nil, decide_eq_true_eq]
        rw [if_pos (by norm_num : (4 / 5 : ℝ) < 1 - 1e-9)])
      (by
        intro hcon
        have h1 := hcon.1
        dsimp only at h1
        rw [show ((100 : ℝ) + 40 / 2 - (0 + 40 / 2)) = 100 by norm_num] at h1
        rw [abs_of_nonneg (by norm_num : (0 : ℝ) ≤ 100)] at h1
        norm_num at h1)
      (by simp) (by simp)
      (by show ¬ ((4 / 5 : ℝ) < 1 / 5); norm_num)
  rw [h.1]
  norm_num [List.min?, List.max?, List.foldl]

/-- For an in-range anchor the rectangle boundary routine always lands
on one of the four rectangle edges. -/
theorem boundary_point_rect_on (s : ShapeElement) (rel_x rel_y : ℝ)
    (hw : 0 < s.w) (hh : 0 < s.h)
    (hx0 : 0 ≤ rel_x) (hx1 : rel_x ≤ 1) (hy0 : 0 ≤ rel_y) (hy1 : rel_y ≤ 1) :
    OnRectBoundary s
      (boundary_point_rect s rel_x rel_y (s.x + s.w * rel_x) (s.y + s.h * rel_y)) := by
  have hbx0 : s.x ≤ s.x + s.w * rel_x := by nlinarith
  have hbx1 : s.x + s.w * rel_x ≤ s.x + s.w := by nlinarith
  have hby0 : s.y ≤ s.y + s.h * rel_y := by nlinarith
  have hby1 : s.y + s.h * rel_y ≤ s.y + s.h := by nlinarith
  unfold boundary_point_rect
  dsimp only
  split_ifs
  all_goals first
    | exact Or.inl ⟨Or.inl rfl, hby0, hby1⟩
    | exact Or.inl ⟨Or.inr rfl, hby0, hby1⟩
    | exact Or.inr ⟨Or.inl rfl, hbx0, hbx1⟩
    | exact Or.inr ⟨Or.inr rfl, hbx0, hbx1⟩

/-- The clamped projection helper always returns a point of the segment. -/
theorem closest_on_segment_mem (px py : ℝ) (a b : Pt) :
    OnSegment a b (closest_on_segment px py a.1 a.2 b.1 b.2) := by
  unfold closest_on_segment
  dsimp only
  split_ifs with h
  · exact ⟨0, le_refl 0, by norm_num,
      by simp only [lerpPt, Prod.mk.injEq]; constructor <;> ring⟩
  · refine ⟨max 0 (min 1 (((px - a.1) * (b.1 - a.1) + (py - a.2) * (b.2 - a.2)) /
      ((b.1 - a.1) * (b.1 - a.1) + (b.2 - a.2) * (b.2 - a.2)))), le_max_left _ _, ?_, ?_⟩
    · exact max_le (by norm_num) (min_le_left _ _)
    · simp only [lerpPt, Prod.mk.injEq]
      constructor <;> ring

/-- A fold of a binary choice function stays within the visited list. -/
theorem foldl_choice_mem (g : Pt → Pt → Pt) (hg : ∀ b c, g b c = b ∨ g b c = c) :
    ∀ (rest : List Pt) (c0 : Pt), rest.foldl g c0 ∈ c0 :: rest := by
  intro rest
  induction rest with
  | nil => intro c0; simp
  | cons c rest ih =>
    intro c0
    rw [List.foldl_cons]
    rcases hg c0 c with h | h <;> rw [h]
    · rcases List.mem_cons.mp (ih c0) with h2 | h2
      · exact List.mem_cons.mpr (Or.inl h2)
      · exact List.mem_cons.mpr (Or.inr (List.mem_cons.mpr (Or.inr h2)))
    · rcases List.mem_cons.mp (ih c) with h2 | h2
      · exact List.mem_cons.mpr (Or.inr (List.mem_cons.mpr (Or.inl h2)))
      · exact List.mem_cons.mpr (Or.inr (List.mem_cons.mpr (Or.inr h2)))

set_option maxHeartbeats 1000000 in
/-- When the base anchor differs from the center, the ellipse boundary
routine lands exactly on the inscribed ellipse. -/
theorem boundary_point_ellipse_on (s : ShapeElement) (bx bby : ℝ)
    (hw : 0 < s.w) (hh : 0 < s.h)
    (hne : (bx, bby) ≠ (s.x + s.w / 2, s.y + s.h / 2)) :
    OnEllipse s (boundary_point_ellipse s bx bby) := by
  have hor : bx ≠ s.x + s.w / 2 ∨ bby ≠ s.y + s.h / 2 := by
    by_contra hcon
    push_neg at hcon
    exact hne (by rw [hcon.1, hcon.2])
  unfold boundary_point_ellipse
  dsimp only
  have hcond : ¬ (s.w ≤ 0 ∨ s.h ≤ 0) := by
    push_neg
    exact ⟨hw, hh⟩
  rw [if_neg hcond]
  set d := ((bx - (s.x + s.w / 2)) / (s.w / 2)) ^ 2 +
      ((bby - (s.y + s.h / 2)) / (s.h / 2)) ^ 2 with hdd
  have hd : 0 < d := by
    rcases hor with h | h
    · have hz : (bx - (s.x + s.w / 2)) / (s.w / 2) ≠ 0 :=
        div_ne_zero (sub_ne_zero.mpr h) (by linarith)
      have h1 : 0 < ((bx - (s.x + s.w / 2)) / (s.w / 2)) ^ 2 :=
        lt_of_le_of_ne (sq_nonneg _) (Ne.symm (pow_ne_zero 2 hz))
      have h2 := sq_nonneg ((bby - (s.y + s.h / 2)) / (s.h / 2))
      rw [hdd]
      linarith
    · have hz : (bby - (s.y + s.h / 2)) / (s.h / 2) ≠ 0 :=
        div_ne_zero (sub_ne_zero.mpr h) (by linarith)
      have h1 : 0 < ((bby - (s.y + s.h / 2)) / (s.h / 2)) ^ 2 :=
        lt_of_le_of_ne (sq_nonneg _) (Ne.symm (pow_ne_zero 2 hz))
      have h2 := sq_nonneg ((bx - (s.x + s.w / 2)) / (s.w / 2))
      rw [hdd]
      linarith
  rw [if_pos hd]
  unfold OnEllipse
  dsimp only
  have e1 : s.x + s.w / 2 + 1 / Real.sqrt d * (bx - (s.x + s.w / 2)) - (s.x + s.w / 2) =
      1 / Real.sqrt d * (bx - (s.x + s.w / 2)) := by ring
  have e2 : s.y + s.h / 2 + 1 / Real.sqrt d * (bby - (s.y + s.h / 2)) - (s.y + s.h / 2) =
      1 / Real.sqrt d * (bby - (s.y + s.h / 2)) := by ring
  rw [e1, e2]
  have key : (1 / Real.sqrt d * (bx - (s.x + s.w / 2)) / (s.w / 2)) ^ 2 +
      (1 / Real.sqrt d * (bby - (s.y + s.h / 2)) / (s.h / 2)) ^ 2 =
      (1 / Real.sqrt d) ^ 2 * (((bx - (s.x + s.w / 2)) / (s.w / 2)) ^ 2 +
        ((bby - (s.y + s.h / 2)) / (s.h / 2)) ^ 2) := by ring
  rw [key, ← hdd, div_pow, one_pow, Real.sq_sqrt hd.le]
  exact one_div_mul_cancel (ne_of_gt hd)

set_option maxHeartbeats 1000000 in
/-- When the base anchor differs from the center, the rhombus boundary
routine lands exactly on the inscribed diamond. -/
theorem boundary_point_rhombus_on (s : ShapeElement) (bx bby : ℝ)
    (hw : 0 < s.w) (hh : 0 < s.h)
    (hne : (bx, bby) ≠ (s.x + s.w / 2, s.y + s.h / 2)) :
    OnRhombus s (boundary_point_rhombus s bx bby) := by
  have hor : bx ≠ s.x + s.w / 2 ∨ bby ≠ s.y + s.h / 2 := by
    by_contra hcon
    push_neg at hcon
    exact hne (by rw [hcon.1, hcon.2])
  unfold boundary_point_rhombus
  dsimp only
  have hcond : ¬ (s.w ≤ 0) := not_le.mpr hw
  rw [if_neg hcond]
  set d := |bx - (s.x + s.w / 2)| / (s.w / 2) + |bby - (s.y + s.h / 2)| / (s.h / 2) with hdd
  have hd : 0 < d := by
    rcases hor with h | h
    · have h1 : 0 < |bx - (s.x + s.w / 2)| / (s.w / 2) :=
        div_pos (abs_pos.mpr (sub_ne_zero.mpr h)) (by linarith)
      have h2 : 0 ≤ |bby - (s.y + s.h / 2)| / (s.h / 2) :=
        div_nonneg (abs_nonneg _) (by linarith)
      rw [hdd]
      linarith
    · have h1 : 0 < |bby - (s.y + s.h / 2)| / (s.h / 2) :=
        div_pos (abs_pos.mpr (sub_ne_zero.mpr h)) (by linarith)
      have h2 : 0 ≤ |bx - (s.x + s.w / 2)| / (s.w / 2) :=
        div_nonneg (abs_nonneg _) (by linarith)
      rw [hdd]
      linarith
  rw [if_pos hd]
  unfold OnRhombus
  dsimp only
  have e1 : s.x + s.w / 2 + 1 / d * (bx - (s.x + s.w / 2)) - (s.x + s.w / 2) =
      1 / d * (bx - (s.x + s.w / 2)) := by ring
  have e2 : s.y + s.h / 2 + 1 / d * (bby - (s.y + s.h / 2)) - (s.y + s.h / 2) =
      1 / d * (bby - (s.y + s.h / 2)) := by ring
  rw [e1, e2, abs_mul, abs_mul, abs_of_pos (one_div_pos.mpr hd)]
  have key : 1 / d * |bx - (s.x + s.w / 2)| / (s.w / 2) +
      1 / d * |bby - (s.y + s.h / 2)| / (s.h / 2) =
      1 / d * (|bx - (s.x + s.w / 2)| / (s.w / 2) + |bby - (s.y + s.h / 2)| / (s.h / 2)) := by
    ring
  rw [key, ← hdd]
  exact one_div_mul_cancel (ne_of_gt hd)

set_option maxHeartbeats 1000000 in
/-- For an in-range anchor the parallelogram boundary routine lands on
the skewed quadrilateral outline. -/
theorem boundary_point_parallelogram_on (s : ShapeElement) (rel_x rel_y : ℝ)
    (hx0 : 0 ≤ rel_x) (hx1 : rel_x ≤ 1) (hy0 : 0 ≤ rel_y) (hy1 : rel_y ≤ 1) :
    OnParallelogramBoundary s
      (boundary_point_parallelogram s rel_x rel_y (s.x + s.w * rel_x) (s.y + s.h * rel_y)) := by
  unfold boundary_point_parallelogram OnParallelogramBoundary
  dsimp only
  split_ifs with h1 h2 h3 h4
  · exact Or.inr (Or.inr (Or.inr ⟨1 - rel_y, by linarith, by linarith,
      by simp only [lerpPt, Prod.mk.injEq]; constructor <;> ring⟩))
  · exact Or.inr (Or.inl ⟨rel_y, hy0, hy1, rfl⟩)
  · exact Or.inl ⟨rel_x, hx0, hx1, rfl⟩
  · exact Or.inr (Or.inr (Or.inl ⟨1 - rel_x, by linarith, by linarith,
      by simp only [lerpPt, Prod.mk.injEq]; constructor <;> ring⟩))
  · set off := max 0 (min (max 0 (min PARALLELOGRAM_SKEW 0.49) * s.h) (s.w * 0.49)) with hoff
    have hg : ∀ b c : Pt,
        (if (s.x + s.w * rel_x - c.1) ^ 2 + (s.y + s.h * rel_y - c.2) ^ 2 <
            (s.x + s.w * rel_x - b.1) ^ 2 + (s.y + s.h * rel_y - b.2) ^ 2 then c else b) = b ∨
        (if (s.x + s.w * rel_x - c.1) ^ 2 + (s.y + s.h * rel_y - c.2) ^ 2 <
            (s.x + s.w * rel_x - b.1) ^ 2 + (s.y + s.h * rel_y - b.2) ^ 2 then c else b) = c := by
      intro b c
      split_ifs
      · exact Or.inr rfl
      · exact Or.inl rfl
    have hmem := foldl_choice_mem
      (fun best c =>
        if (s.x + s.w * rel_x - c.1) ^ 2 + (s.y + s.h * rel_y - c.2) ^ 2 <
            (s.x + s.w * rel_x - best.1) ^ 2 + (s.y + s.h * rel_y - best.2) ^ 2 then c else best)
      hg
      [closest_on_segment (s.x + s.w * rel_x) (s.y + s.h * rel_y)
        (s.x + s.w) s.y (s.x + s.w - off) (s.y + s.h),
       closest_on_segment (s.x + s.w * rel_x) (s.y + s.h * rel_y)
        (s.x + s.w - off) (s.y + s.h) s.x (s.y + s.h),
       closest_on_segment (s.x + s.w * rel_x) (s.y + s.h * rel_y)
        s.x (s.y + s.h) (s.x + off) s.y]
      (closest_on_segment (s.x + s.w * rel_x) (s.y + s.h * rel_y)
        (s.x + off) s.y (s.x + s.w) s.y)
    simp only [List.mem_cons, List.not_mem_nil, or_false] at hmem
    rcases hmem with he | he | he | he
    · rw [he]
      exact Or.inl (closest_on_segment_mem (s.x + s.w * rel_x) (s.y + s.h * rel_y)
        (s.x + off, s.y) (s.x + s.w, s.y))
    · rw [he]
      exact Or.inr (Or.inl (closest_on_segment_mem (s.x + s.w * rel_x) (s.y + s.h * rel_y)
        (s.x + s.w, s.y) (s.x + s.w - off, s.y + s.h)))
    · rw [he]
      exact Or.inr (Or.inr (Or.inl (closest_on_segment_mem (s.x + s.w * rel_x)
        (s.y + s.h * rel_y) (s.x + s.w - off, s.y + s.h) (s.x, s.y + s.h))))
    · rw [he]
      exact Or.inr (Or.inr (Or.inr (closest_on_segment_mem (s.x + s.w * rel_x)
        (s.y + s.h * rel_y) (s.x, s.y + s.h) (s.x + off, s.y))))

set_option maxHeartbeats 1000000 in
/-- C5 counterexample: on the ellipse shape (0,0,2,2) the center anchor
(0.5, 0.5) has a zero direction vector, so the guard `denom_sq > 0`
fails and the boundary calculator returns the center itself, which does
not satisfy the ellipse equation (it evaluates to 0, not 1). -/
theorem boundary_point_center_anchor_off_outline :
    calculate_boundary_point ⟨none, 0, 0, 2, 2, ("ellipse".toList)⟩ (1 / 2) (1 / 2) 0 0 =
      ((1 : ℝ), 1) ∧
    ¬ OnEllipse ⟨none, 0, 0, 2, 2, ("ellipse".toList)⟩ ((1 : ℝ), 1) := by
  constructor
  · unfold calculate_boundary_point
    dsimp only
    norm_num [boundary_point_ellipse]
    simp +decide
  · unfold OnEllipse
    norm_num

set_option maxHeartbeats 1000000 in
/-- C5 (amended): for a shape with positive width and height and an
anchor in the unit square with zero pixel offset, the boundary
calculator lands on the drawn outline of the dispatched shape family:
the rectangle edge for rectangle-like types, the exact ellipse curve for
ellipse/circle types and the diamond for rhombus types provided the
anchor is not the center, and the skewed quadrilateral for
parallelogram/data types. -/
theorem boundary_point_on_outline (s : ShapeElement) (rel_x rel_y : ℝ)
    (hw : 0 < s.w) (hh : 0 < s.h)
    (hx0 : 0 ≤ rel_x) (hx1 : rel_x ≤ 1) (hy0 : 0 ≤ rel_y) (hy1 : rel_y ≤ 1) :
    ((pyContains ("parallelogram".toList) (pyLower s.shape_type) ||
        pyContains ("data".toList) (pyLower s.shape_type)) = false →
      pyContains ("rhombus".toList) (pyLower s.shape_type) = false →
      (pyContains ("ellipse".toList) (pyLower s.shape_type) ||
        pyContains ("circle".toList) (pyLower s.shape_type)) = false →
      OnRectBoundary s (calculate_boundary_point s rel_x rel_y 0 0)) ∧
    ((pyContains ("parallelogram".toList) (pyLower s.shape_type) ||
        pyContains ("data".toList) (pyLower s.shape_type)) = false →
      pyContains ("rhombus".toList) (pyLower s.shape_type) = false →
      (pyContains ("ellipse".toList) (pyLower s.shape_type) ||
        pyContains ("circle".toList) (pyLower s.shape_type)) = true →
      (s.x + s.w * rel_x, s.y + s.h * rel_y) ≠ (s.x + s.w / 2, s.y + s.h / 2) →
      OnEllipse s (calculate_boundary_point s rel_x rel_y 0 0)) ∧
    ((pyContains ("parallelogram".toList) (pyLower s.shape_type) ||
        pyContains ("data".toList) (pyLower s.shape_type)) = false →
      pyContains ("rhombus".toList) (pyLower s.shape_type) = true →
      (s.x + s.w * rel_x, s.y + s.h * rel_y) ≠ (s.x + s.w / 2, s.y + s.h / 2) →
      OnRhombus s (calculate_boundary_point s rel_x rel_y 0 0)) ∧
    ((pyContains ("parallelogram".toList) (pyLower s.shape_type) ||
        pyContains ("data".toList) (pyLower s.shape_type)) = true →
      OnParallelogramBoundary s (calculate_boundary_point s rel_x rel_y 0 0)) := by
  refine ⟨?_, ?_, ?_, ?_⟩
  · intro h1 h2 h3
    unfold calculate_boundary_point
    dsimp only
    simp only [h1, h2, h3, Bool.false_eq_true, if_false, add_zero, Prod.mk.eta]
    exact boundary_point_rect_on s rel_x rel_y hw hh hx0 hx1 hy0 hy1
  · intro h1 h2 h3 hne
    unfold calculate_boundary_point
    dsimp only
    simp only [h1, h2, h3, Bool.false_eq_true, if_false, eq_self_iff_true, if_true, add_zero,
      Prod.mk.eta]
    exact boundary_point_ellipse_on s (s.x + s.w * rel_x) (s.y + s.h * rel_y) hw hh hne
  · intro h1 h2 hne
    unfold calculate_boundary_point
    dsimp only
    simp only [h1, h2, Bool.false_eq_true, if_false, eq_self_iff_true, if_true, add_zero,
      Prod.mk.eta]
    exact boundary_point_rhombus_on s (s.x + s.w * rel_x) (s.y + s.h * rel_y) hw hh hne
  · intro h1
    unfold calculate_boundary_point
    dsimp only
    simp only [h1, eq_self_iff_true, if_true, add_zero, Prod.mk.eta]
    exact boundary_point_parallelogram_on s rel_x rel_y hx0 hx1 hy0 hy1

/-- C5 witness: on the plain rectangle (0,0,2,2) the anchor (1, 0.5)
lands on the rectangle outline. -/
theorem boundary_point_on_outline_witness :
    OnRectBoundary ⟨none, 0, 0, 2, 2, ("rectangle".toList)⟩
      (calculate_boundary_point ⟨none, 0, 0, 2, 2, ("rectangle".toList)⟩ 1 (1 / 2) 0 0) :=
  (boundary_point_on_outline ⟨none, 0, 0, 2, 2, ("rectangle".toList)⟩ 1 (1 / 2)
    (by norm_num) (by norm_num) (by norm_num) (by norm_num) (by norm_num) (by norm_num)).1
    (by decide) (by decide) (by decide)

/-- Enumerating a list that does not contain `x` and filtering for `x`
yields nothing. -/
theorem enumFrom_filter_eq_nil (x : PyStr) :
    ∀ (l : List PyStr) (n : ℕ), x ∉ l →
      (List.enumFrom n l).filter (fun p => p.2 == x) = [] := by
  intro l
  induction l with
  | nil => intro n _; rfl
  | cons a l ih =>
    intro n hx
    rw [List.enumFrom_cons, List.filter_cons]
    have hax : ¬ (((n, a).2 == x) = true) := by
      simp only [beq_iff_eq]
      intro h
      exact hx (by rw [← h]; exact List.mem_cons_self _ _)
    rw [if_neg hax]
    exact ih (n + 1) (fun h => hx (List.mem_cons_of_mem _ h))

/-- Skipping an `x`-free prefix when filtering an enumeration for `x`. -/
theorem enumFrom_filter_skip (x : PyStr) :
    ∀ (o1 l : List PyStr) (n : ℕ), x ∉ o1 →
      (List.enumFrom n (o1 ++ l)).filter (fun p => p.2 == x) =
      (List.enumFrom (n + o1.length) l).filter (fun p => p.2 == x) := by
  intro o1
  induction o1 with
  | nil => intro l n _; rw [List.nil_append, List.length_nil, Nat.add_zero]
  | cons a o1 ih =>
    intro l n hx
    rw [List.cons_append, List.enumFrom_cons, List.filter_cons]
    have hax : ¬ (((n, a).2 == x) = true) := by
      simp only [beq_iff_eq]
      intro h
      exact hx (by rw [← h]; exact List.mem_cons_self _ _)
    rw [if_neg hax]
    rw [ih l (n + 1) (fun h => hx (List.mem_cons_of_mem _ h))]
    rw [List.length_cons, show n + 1 + o1.length = n + (o1.length + 1) from by omega]

/-- On a list that contains `x` exactly at the split position, the
last-occurrence index map returns the prefix length. -/
theorem cellOrderGet_split (o1 o2 : List PyStr) (x : PyStr)
    (h1 : x ∉ o1) (h2 : x ∉ o2) :
    cellOrderGet (o1 ++ x :: o2) x = some o1.length := by
  unfold cellOrderGet
  show (((List.enumFrom 0 (o1 ++ x :: o2)).filter (fun p => p.2 == x)).getLast?).map
      Prod.fst = some o1.length
  rw [enumFrom_filter_skip x o1 (x :: o2) 0 h1]
  rw [List.enumFrom_cons, List.filter_cons]
  rw [if_pos (by simp)]
  rw [enumFrom_filter_eq_nil x o2 (0 + o1.length + 1) h2]
  simp

/-- Filtering an enumeration starting at `n` for a present value yields
a last index at least `n`. -/
theorem cellOrderGet_tail_ge (x : PyStr) :
    ∀ (l : List PyStr) (n : ℕ), x ∈ l →
      ∃ k, (((List.enumFrom n l).filter (fun p => p.2 == x)).getLast?).map Prod.fst = some k ∧
        n ≤ k := by
  intro l
  induction l with
  | nil => intro n h; cases h
  | cons a l ih =>
    intro n hx
    rw [List.enumFrom_cons, List.filter_cons]
    by_cases hmem : x ∈ l
    · obtain ⟨k, hk, hnk⟩ := ih (n + 1) hmem
      rcases hrest : (List.enumFrom (n + 1) l).filter (fun p => p.2 == x) with _ | ⟨b, rest⟩
      · rw [hrest] at hk
        simp at hk
      · rw [hrest] at hk
        split_ifs with hcond
        · rw [hrest, List.getLast?_cons_cons]
          exact ⟨k, hk, le_trans (Nat.le_succ n) hnk⟩
        · rw [hrest]
          exact ⟨k, hk, le_trans (Nat.le_succ n) hnk⟩
    · have hxa : x = a := by
        rcases List.mem_cons.mp hx with h | h
        · exact h
        · exact absurd h hmem
      rw [enumFrom_filter_eq_nil x l (n + 1) hmem]
      rw [if_pos (by simp [hxa])]
      exact ⟨n, by simp, le_refl n⟩

/-- In a duplicate-free list split around `x` with `y` strictly after,
the last-occurrence index of `x` is strictly below that of `y`. -/
theorem cellOrderGet_lt (o1 o2 : List PyStr) (x y : PyStr)
    (hnd : (o1 ++ x :: o2).Nodup) (hy2 : y ∈ o2) (hyx : y ≠ x) (hy1 : y ∉ o1) :
    ∃ kx ky, cellOrderGet (o1 ++ x :: o2) x = some kx ∧
      cellOrderGet (o1 ++ x :: o2) y = some ky ∧ kx < ky ∧
      kx < (o1 ++ x :: o2).length := by
  have hx1 : x ∉ o1 := by
    intro hmem
    rw [List.nodup_append] at hnd
    exact hnd.2.2 hmem (List.mem_cons_self _ _)
  have hx2 : x ∉ o2 := by
    rw [List.nodup_append] at hnd
    have := hnd.2.1
    rw [List.nodup_cons] at this
    exact this.1
  refine ⟨o1.length, ?_⟩
  have h1 := cellOrderGet_split o1 o2 x hx1 hx2
  have h2 : ∃ k, cellOrderGet (o1 ++ x :: o2) y = some k ∧ o1.length + 1 ≤ k := by
    unfold cellOrderGet
    obtain ⟨k, hk, hnk⟩ := cellOrderGet_tail_ge y o2 (0 + o1.length + 1) hy2
    refine ⟨k, ?_, by omega⟩
    show (((List.enumFrom 0 (o1 ++ x :: o2)).filter (fun p => p.2 == y)).getLast?).map
        Prod.fst = some k
    rw [enumFrom_filter_skip y o1 (x :: o2) 0 hy1]
    rw [List.enumFrom_cons, List.filter_cons]
    rw [if_neg (by simp; exact fun h => hyx h.symm)]
    exact hk
  obtain ⟨k, hk, hnk⟩ := h2
  refine ⟨k, h1, hk, by omega, ?_⟩
  rw [List.length_append, List.length_cons]
  omega

/-- With duplicate-free ids, `cell_by_id` maps an id to the unique cell
carrying it. -/
theorem cellById_of_mem_unique (i : PyStr) :
    ∀ (cells : List MxCell), (cells.filterMap MxCell.id).Nodup →
      ∀ c : MxCell, c ∈ cells → c.id = some i → cellById cells i = some c := by
  intro cells
  induction cells with
  | nil => intro _ c hc; cases hc
  | cons a rest ih =>
    intro hnodup c hc hci
    have hrestnodup : (rest.filterMap MxCell.id).Nodup := by
      rcases haid : a.id with _ | v
      · rw [List.filterMap_cons] at hnodup
        rw [haid] at hnodup
        exact hnodup
      · rw [List.filterMap_cons, haid] at hnodup
        exact List.Nodup.of_cons hnodup
    by_cases ha : a.id = some i
    · have hfind : cellById (a :: rest) i = some a := by
        unfold cellById
        rw [List.find?_cons_of_pos]
        simp [ha]
      rw [hfind]
      rcases List.mem_cons.mp hc with h | h
      · rw [h]
      · exfalso
        rw [List.filterMap_cons, ha] at hnodup
        rw [List.nodup_cons] at hnodup
        exact hnodup.1 (List.mem_filterMap.mpr ⟨c, h, hci⟩)
    · have hfind : cellById (a :: rest) i = cellById rest i := by
        unfold cellById
        rw [List.find?_cons_of_neg]
        simp [ha]
      rw [hfind]
      rcases List.mem_cons.mp hc with h | h
      · exact absurd (h ▸ hci) ha
      · exact ih hrestnodup c h hci

/-- With duplicate-free ids, a child id appears in exactly one parent's
children list. -/
theorem children_unique_parent (cells : List MxCell)
    (hnodup : (cells.filterMap MxCell.id).Nodup) (j cid : PyStr) (cj : MxCell)
    (hj : cellById cells j = some cj) (hpar : cj.parent = some cid) :
    ∀ p, j ∈ childrenByParent cells p → p = cid := by
  intro p hmem
  unfold childrenByParent at hmem
  obtain ⟨c, hc, hfc⟩ := List.mem_filterMap.mp hmem
  rcases hid : c.id with _ | ci <;> rw [hid] at hfc
  · rcases hpp : c.parent with _ | cp <;> rw [hpp] at hfc <;> dsimp only at hfc <;> cases hfc
  · rcases hpp : c.parent with _ | cp <;> rw [hpp] at hfc <;> dsimp only at hfc
    · cases hfc
    · split_ifs at hfc with hcond
      · injection hfc with hcj
        subst hcj
        have := cellById_of_mem_unique ci cells hnodup c hc hid
        rw [this] at hj
        injection hj with hj
        rw [← hj, hpp] at hpar
        injection hpar with hpar
        rw [← hpar]
        exact hcond.1.symm

/-- The stack walker only ever appends to the accumulated draw order. -/
theorem appendDrawOrderStack_order_extend (cells : List MxCell) :
    ∀ (fuel : ℕ) (stack : List (List PyStr)) (st : List PyStr × List PyStr),
      ∃ ext, (appendDrawOrderStack cells fuel stack st).2 = st.2 ++ ext := by
  intro fuel
  induction fuel with
  | zero =>
    intro stack st
    exact ⟨[], by simp [appendDrawOrderStack]⟩
  | succ fuel ih =>
    intro stack st
    rcases stack with _ | ⟨l, outer⟩
    · exact ⟨[], by simp [appendDrawOrderStack]⟩
    rcases l with _ | ⟨cid0, rest⟩
    · have heq : appendDrawOrderStack cells (fuel + 1) ([] :: outer) st =
          appendDrawOrderStack cells fuel outer st := by
        simp [appendDrawOrderStack]
      rw [heq]
      exact ih outer st
    by_cases hmem : cid0 ∈ st.1
    · have heq : appendDrawOrderStack cells (fuel + 1) ((cid0 :: rest) :: outer) st =
          appendDrawOrderStack cells fuel (rest :: outer) st := by
        simp [appendDrawOrderStack, hmem]
      rw [heq]
      exact ih _ _
    · rcases hcell : cellById cells cid0 with _ | c
      · have heq : appendDrawOrderStack cells (fuel + 1) ((cid0 :: rest) :: outer) st =
            appendDrawOrderStack cells fuel (rest :: outer) (cid0 :: st.1, st.2) := by
          simp [appendDrawOrderStack, hmem, hcell]
        rw [heq]
        obtain ⟨ext, hext⟩ := ih (rest :: outer) (cid0 :: st.1, st.2)
        exact ⟨ext, hext⟩
      · by_cases hve : (c.vertex || c.edge) = true
        · have heq : appendDrawOrderStack cells (fuel + 1) ((cid0 :: rest) :: outer) st =
              appendDrawOrderStack cells fuel (childrenByParent cells cid0 :: rest :: outer)
                (cid0 :: st.1, st.2 ++ [cid0]) := by
            simp [appendDrawOrderStack, hmem, hcell, hve]
          rw [heq]
          obtain ⟨ext, hext⟩ :=
            ih (childrenByParent cells cid0 :: rest :: outer) (cid0 :: st.1, st.2 ++ [cid0])
          exact ⟨cid0 :: ext, by rw [hext]; simp⟩
        · have heq : appendDrawOrderStack cells (fuel + 1) ((cid0 :: rest) :: outer) st =
              appendDrawOrderStack cells fuel (childrenByParent cells cid0 :: rest :: outer)
                (cid0 :: st.1, st.2) := by
            simp [appendDrawOrderStack, hmem, hcell, hve]
          rw [heq]
          obtain ⟨ext, hext⟩ :=
            ih (childrenByParent cells cid0 :: rest :: outer) (cid0 :: st.1, st.2)
          exact ⟨ext, hext⟩

set_option maxHeartbeats 1000000 in
/-- The stack walker keeps the draw order duplicate-free and within the
document's ids, provided the accumulated order is covered by the
visited set. -/
theorem appendDrawOrderStack_nodup (cells : List MxCell) :
    ∀ (fuel : ℕ) (stack : List (List PyStr)) (visited order : List PyStr),
      (∀ x ∈ order, x ∈ visited) → order.Nodup →
      (∀ x ∈ order, x ∈ cells.filterMap MxCell.id) →
      ((appendDrawOrderStack cells fuel stack (visited, order)).2.Nodup ∧
       ∀ x ∈ (appendDrawOrderStack cells fuel stack (visited, order)).2,
         x ∈ cells.filterMap MxCell.id) := by
  intro fuel
  induction fuel with
  | zero =>
    intro stack visited order hsub hnd hids
    have heq : appendDrawOrderStack cells 0 stack (visited, order) = (visited, order) := by
      simp [appendDrawOrderStack]
    rw [heq]
    exact ⟨hnd, hids⟩
  | succ fuel ih =>
    intro stack visited order hsub hnd hids
    rcases stack with _ | ⟨l, outer⟩
    · have heq : appendDrawOrderStack cells (fuel + 1) [] (visited, order) = (visited, order) := by
        simp [appendDrawOrderStack]
      rw [heq]
      exact ⟨hnd, hids⟩
    rcases l with _ | ⟨cid0, rest⟩
    · have heq : appendDrawOrderStack cells (fuel + 1) ([] :: outer) (visited, order) =
          appendDrawOrderStack cells fuel outer (visited, order) := by
        simp [appendDrawOrderStack]
      rw [heq]
      exact ih outer visited order hsub hnd hids
    by_cases hmem : cid0 ∈ visited
    · have heq : appendDrawOrderStack cells (fuel + 1) ((cid0 :: rest) :: outer)
          (visited, order) = appendDrawOrderStack cells fuel (rest :: outer) (visited, order) := by
        simp [appendDrawOrderStack, hmem]
      rw [heq]
      exact ih _ visited order hsub hnd hids
    · rcases hcell : cellById cells cid0 with _ | c
      · have heq : appendDrawOrderStack cells (fuel + 1) ((cid0 :: rest) :: outer)
            (visited, order) =
            appendDrawOrderStack cells fuel (rest :: outer) (cid0 :: visited, order) := by
          simp [appendDrawOrderStack, hmem, hcell]
        rw [heq]
        exact ih _ _ _ (fun x hx => List.mem_cons_of_mem _ (hsub x hx)) hnd hids
      · have hidmem : cid0 ∈ cells.filterMap MxCell.id := by
          refine List.mem_filterMap.mpr ⟨c, List.mem_of_find?_eq_some hcell, ?_⟩
          have := List.find?_some hcell
          simpa [beq_iff_eq] using this
        by_cases hve : (c.vertex || c.edge) = true
        · have heq : appendDrawOrderStack cells (fuel + 1) ((cid0 :: rest) :: outer)
              (visited, order) =
              appendDrawOrderStack cells fuel (childrenByParent cells cid0 :: rest :: outer)
                (cid0 :: visited, order ++ [cid0]) := by
            simp [appendDrawOrderStack, hmem, hcell, hve]
          rw [heq]
          refine ih _ _ _ ?_ ?_ ?_
          · intro x hx
            rcases List.mem_append.mp hx with h | h
            · exact List.mem_cons_of_mem _ (hsub x h)
            · rw [List.mem_singleton.mp h]
              exact List.mem_cons_self _ _
          · rw [List.nodup_append]
            refine ⟨hnd, List.nodup_singleton _, ?_⟩
            intro x hx hx1
            rw [List.mem_singleton.mp hx1] at hx
            exact hmem (hsub _ hx)
          · intro x hx
            rcases List.mem_append.mp hx with h | h
            · exact hids x h
            · rw [List.mem_singleton.mp h]
              exact hidmem
        · have heq : appendDrawOrderStack cells (fuel + 1) ((cid0 :: rest) :: outer)
              (visited, order) =
              appendDrawOrderStack cells fuel (childrenByParent cells cid0 :: rest :: outer)
                (cid0 :: visited, order) := by
            simp [appendDrawOrderStack, hmem, hcell, hve]
          rw [heq]
          exact ih _ _ _ (fun x hx => List.mem_cons_of_mem _ (hsub x hx)) hnd hids

set_option maxHeartbeats 1000000 in
/-- If `j` can only be a child of the container `cid`, then whenever the
stack walker emits `j` it has emitted `cid` strictly earlier: the final
order splits as `order ++ o1 ++ cid :: o2` with `j ∈ o2` and neither id
inside `o1`. -/
theorem appendDrawOrderStack_split (cells : List MxCell) (cid j : PyStr) (pc : MxCell)
    (hcell_cid : cellById cells cid = some pc) (hve : (pc.vertex || pc.edge) = true)
    (honly : ∀ p, j ∈ childrenByParent cells p → p = cid) (hne : j ≠ cid) :
    ∀ (fuel : ℕ) (stack : List (List PyStr)) (visited order : List PyStr),
      (∀ x ∈ order, x ∈ visited) →
      cid ∉ visited → j ∉ visited →
      (∀ l ∈ stack, j ∉ l) →
      j ∈ (appendDrawOrderStack cells fuel stack (visited, order)).2 →
      ∃ o1 o2, (appendDrawOrderStack cells fuel stack (visited, order)).2 =
          order ++ o1 ++ cid :: o2 ∧ cid ∉ o1 ∧ j ∉ o1 ∧ j ∈ o2 := by
  intro fuel
  induction fuel with
  | zero =>
    intro stack visited order hsub hcv hjv hstack hjfin
    have heq : appendDrawOrderStack cells 0 stack (visited, order) = (visited, order) := by
      simp [appendDrawOrderStack]
    rw [heq] at hjfin
    exact absurd (hsub _ hjfin) hjv
  | succ fuel ih =>
    intro stack visited order hsub hcv hjv hstack hjfin
    rcases stack with _ | ⟨l, outer⟩
    · have heq : appendDrawOrderStack cells (fuel + 1) [] (visited, order) = (visited, order) := by
        simp [appendDrawOrderStack]
      rw [heq] at hjfin
      exact absurd (hsub _ hjfin) hjv
    rcases l with _ | ⟨cid0, rest⟩
    · have heq : appendDrawOrderStack cells (fuel + 1) ([] :: outer) (visited, order) =
          appendDrawOrderStack cells fuel outer (visited, order) := by
        simp [appendDrawOrderStack]
      rw [heq] at hjfin ⊢
      exact ih outer visited order hsub hcv hjv
        (fun l hl => hstack l (List.mem_cons_of_mem _ hl)) hjfin
    have hjhead : j ∉ (cid0 :: rest) := hstack _ (List.mem_cons_self _ _)
    have hjrest : j ∉ rest := fun h => hjhead (List.mem_cons_of_mem _ h)
    have hjcid0 : j ≠ cid0 := fun h => hjhead (h ▸ List.mem_cons_self _ _)
    have hstack' : ∀ l ∈ (rest :: outer), j ∉ l := by
      intro l hl
      rcases List.mem_cons.mp hl with h | h
      · rw [h]; exact hjrest
      · exact hstack l (List.mem_cons_of_mem _ h)
    by_cases hmem : cid0 ∈ visited
    · have heq : appendDrawOrderStack cells (fuel + 1) ((cid0 :: rest) :: outer)
          (visited, order) = appendDrawOrderStack cells fuel (rest :: outer) (visited, order) := by
        simp [appendDrawOrderStack, hmem]
      rw [heq] at hjfin ⊢
      exact ih _ visited order hsub hcv hjv hstack' hjfin
    · by_cases hc0 : cid0 = cid
      · subst hc0
        have hve' : pc.vertex = true ∨ pc.edge = true := by
          simpa [Bool.or_eq_true] using hve
        have heq : appendDrawOrderStack cells (fuel + 1) ((cid0 :: rest) :: outer)
            (visited, order) =
            appendDrawOrderStack cells fuel (childrenByParent cells cid0 :: rest :: outer)
              (cid0 :: visited, order ++ [cid0]) := by
          simp [appendDrawOrderStack, hmem, hcell_cid, hve']
        rw [heq] at hjfin ⊢
        obtain ⟨ext, hext⟩ := appendDrawOrderStack_order_extend cells fuel
          (childrenByParent cells cid0 :: rest :: outer) (cid0 :: visited, order ++ [cid0])
        refine ⟨[], ext, ?_, List.not_mem_nil _, List.not_mem_nil _, ?_⟩
        · rw [hext]
          simp
        · rw [hext] at hjfin
          rcases List.mem_append.mp hjfin with h | h
          · rcases List.mem_append.mp h with h2 | h2
            · exact absurd (hsub _ h2) hjv
            · exact absurd (List.mem_singleton.mp h2) hjcid0
          · exact h
      · rcases hcell : cellById cells cid0 with _ | c
        · have heq : appendDrawOrderStack cells (fuel + 1) ((cid0 :: rest) :: outer)
              (visited, order) =
              appendDrawOrderStack cells fuel (rest :: outer) (cid0 :: visited, order) := by
            simp [appendDrawOrderStack, hmem, hcell]
          rw [heq] at hjfin ⊢
          refine ih _ _ _ (fun x hx => List.mem_cons_of_mem _ (hsub x hx)) ?_ ?_ hstack' hjfin
          · intro h
            rcases List.mem_cons.mp h with h2 | h2
            · exact hc0 h2.symm
            · exact hcv h2
          · intro h
            rcases List.mem_cons.mp h with h2 | h2
            · exact hjcid0 h2
            · exact hjv h2
        · have hkids : j ∉ childrenByParent cells cid0 := fun h => hc0 (honly _ h)
          have hstack2 : ∀ l ∈ (childrenByParent cells cid0 :: rest :: outer), j ∉ l := by
            intro l hl
            rcases List.mem_cons.mp hl with h | h
            · rw [h]; exact hkids
            · exact hstack' l h
          have hcv' : cid ∉ (cid0 :: visited) := by
            intro h
            rcases List.mem_cons.mp h with h2 | h2
            · exact hc0 h2.symm
            · exact hcv h2
          have hjv' : j ∉ (cid0 :: visited) := by
            intro h
            rcases List.mem_cons.mp h with h2 | h2
            · exact hjcid0 h2
            · exact hjv h2
          by_cases hvec : (c.vertex || c.edge) = true
          · have heq : appendDrawOrderStack cells (fuel + 1) ((cid0 :: rest) :: outer)
                (visited, order) =
                appendDrawOrderStack cells fuel (childrenByParent cells cid0 :: rest :: outer)
                  (cid0 :: visited, order ++ [cid0]) := by
              simp [appendDrawOrderStack, hmem, hcell, hvec]
            rw [heq] at hjfin ⊢
            obtain ⟨o1, o2, hsplit, hco1, hjo1, hjo2⟩ := ih _ (cid0 :: visited) (order ++ [cid0])
              (by
                intro x hx
                rcases List.mem_append.mp hx with h | h
                · exact List.mem_cons_of_mem _ (hsub x h)
                · rw [List.mem_singleton.mp h]
                  exact List.mem_cons_self _ _)
              hcv' hjv' hstack2 hjfin
            refine ⟨cid0 :: o1, o2, ?_, ?_, ?_, hjo2⟩
            · rw [hsplit]
              simp
            · intro h
              rcases List.mem_cons.mp h with h2 | h2
              · exact hc0 h2.symm
              · exact hco1 h2
            · intro h
              rcases List.mem_cons.mp h with h2 | h2
              · exact hjcid0 h2
              · exact hjo1 h2
          · have heq : appendDrawOrderStack cells (fuel + 1) ((cid0 :: rest) :: outer)
                (visited, order) =
                appendDrawOrderStack cells fuel (childrenByParent cells cid0 :: rest :: outer)
                  (cid0 :: visited, order) := by
              simp [appendDrawOrderStack, hmem, hcell, hvec]
            rw [heq] at hjfin ⊢
            exact ih _ _ _ (fun x hx => List.mem_cons_of_mem _ (hsub x hx))
              hcv' hjv' hstack2 hjfin

set_option maxHeartbeats 1000000 in
/-- In the depth-first walk, a container id is emitted strictly before
any of its children, at a position below the list length, and the walk
emits at most one entry per document cell. -/
theorem drawOrderWalked_cid_before_j (cells : List MxCell) (cid j : PyStr) (cj : MxCell)
    (hnodup : (cells.filterMap MxCell.id).Nodup)
    (hcont : isContainerVertexId cells cid = true)
    (hj : cellById cells j = some cj) (hpar : cj.parent = some cid) (hne : j ≠ cid)
    (hjw : j ∈ drawOrderWalked cells) :
    ∃ kc kj, cellOrderGet (drawOrderWalked cells) cid = some kc ∧
      cellOrderGet (drawOrderWalked cells) j = some kj ∧ kc < kj ∧
      kc < (drawOrderWalked cells).length ∧
      (drawOrderWalked cells).length ≤ cells.length := by
  have honly := children_unique_parent cells hnodup j cid cj hj hpar
  simp only [isContainerVertexId, Bool.and_eq_true, Bool.not_eq_true',
    beq_eq_false_iff_ne] at hcont
  obtain ⟨⟨⟨⟨h0ne, h1ne⟩, hnilne⟩, hany⟩, hmatch⟩ := hcont
  rcases hpc : cellById cells cid with _ | pc
  · rw [hpc] at hmatch
    cases hmatch
  rw [hpc] at hmatch
  have hve : (pc.vertex || pc.edge) = true := by
    rw [Bool.and_eq_true] at hmatch
    simp [hmatch.1]
  have hmain : ∀ (roots : List PyStr), j ∉ roots →
      j ∈ (appendDrawOrderStack cells (2 * cells.length + 2) [roots] ([], [])).2 →
      ∃ kc kj,
        cellOrderGet (appendDrawOrderStack cells (2 * cells.length + 2) [roots] ([], [])).2 cid
          = some kc ∧
        cellOrderGet (appendDrawOrderStack cells (2 * cells.length + 2) [roots] ([], [])).2 j
          = some kj ∧ kc < kj ∧
        kc < (appendDrawOrderStack cells (2 * cells.length + 2) [roots] ([], [])).2.length ∧
        (appendDrawOrderStack cells (2 * cells.length + 2) [roots] ([], [])).2.length ≤
          cells.length := by
    intro roots hjroots hjfin
    obtain ⟨o1, o2, hsplit, hco1, hjo1, hjo2⟩ :=
      appendDrawOrderStack_split cells cid j pc hpc hve honly hne
        (2 * cells.length + 2) [roots] [] []
        (fun x hx => absurd hx (List.not_mem_nil _))
        (List.not_mem_nil _) (List.not_mem_nil _)
        (by
          intro l hl
          rw [List.mem_singleton.mp hl]
          exact hjroots)
        hjfin
    rw [List.nil_append] at hsplit
    obtain ⟨hnd, hids⟩ := appendDrawOrderStack_nodup cells (2 * cells.length + 2) [roots] [] []
      (fun x hx => absurd hx (List.not_mem_nil _)) List.nodup_nil
      (fun x hx => absurd hx (List.not_mem_nil _))
    rw [hsplit] at hnd hids hjfin ⊢
    obtain ⟨kc, kj, hkc, hkj, hklt, hkclen⟩ := cellOrderGet_lt o1 o2 cid j hnd hjo2 hne hjo1
    refine ⟨kc, kj, hkc, hkj, hklt, hkclen, ?_⟩
    have hsubper := List.Nodup.subperm hnd (fun {a} ha => hids a ha)
    exact le_trans hsubper.length_le (List.length_filterMap_le _ _)
  unfold drawOrderWalked at hjw ⊢
  dsimp only at hjw ⊢
  split_ifs at hjw ⊢ with hc0 hc1
  · refine hmain _ ?_ hjw
    intro h
    exact h0ne (honly _ h).symm
  · refine hmain _ ?_ hjw
    intro h
    exact h1ne (honly _ h).symm
  · exact absurd hjw (List.not_mem_nil _)

/-- Every shape produced by `extract_elements` carries the z-index that
`shape_z_index` computes for its id. -/
theorem z_of_extracted (cells : List MxCell) (s : ShapeRec)
    (hs : s ∈ extract_shapes_with_z cells) : s.z_index = shape_z_index cells s.id := by
  unfold extract_shapes_with_z at hs
  obtain ⟨c, hc, hfc⟩ := List.mem_filterMap.mp hs
  split_ifs at hfc with hv
  · rcases hg : extract_shape c with _ | s0 <;> rw [hg] at hfc
    · cases hfc
    · simp only [Option.map_some'] at hfc
      injection hfc with hfc
      rw [← hfc]

/-- C6 counterexample: in `cexCells` the vertex `c` is a container whose
child vertex `d` is also extracted as a shape, but the chain hangs from
a nonexistent parent `zz`, so the depth-first walk never reaches it;
both ids fall back to draw index 0 and the container penalty leaves
`z(c) = z(d) = -100000`, so the container is not strictly behind its
content. -/
theorem container_z_counterexample :
    isContainerVertexId cexCells ("c".toList) = true ∧
    (cellById cexCells ("d".toList)).map MxCell.parent = some (some ("c".toList)) ∧
    (cellById cexCells ("d".toList)).map MxCell.vertex = some true ∧
    (∃ s ∈ extract_shapes_with_z cexCells, s.id = some ("c".toList)) ∧
    (∃ s ∈ extract_shapes_with_z cexCells, s.id = some ("d".toList)) ∧
    ∀ sC ∈ extract_shapes_with_z cexCells, ∀ sD ∈ extract_shapes_with_z cexCells,
      sC.id = some ("c".toList) → sD.id = some ("d".toList) →
      ¬ (sC.z_index < sD.z_index) := by
  decide

set_option maxHeartbeats 1000000 in
/-- C6 (amended): in a document with duplicate-free ids, for a container
vertex `cid` whose child `j` is reached by the depth-first draw-order
walk, every extracted shape with id `cid` has a strictly smaller z-index
than every extracted shape with id `j`: the container is pushed behind
its contents. -/
theorem container_behind_contents (cells : List MxCell) (cid j : PyStr) (cj : MxCell)
    (sC sD : ShapeRec)
    (hnodup : (cells.filterMap MxCell.id).Nodup)
    (hcont : isContainerVertexId cells cid = true)
    (hj : cellById cells j = some cj) (hpar : cj.parent = some cid) (hne : j ≠ cid)
    (hjw : j ∈ drawOrderWalked cells)
    (hsC : sC ∈ extract_shapes_with_z cells) (hidC : sC.id = some cid)
    (hsD : sD ∈ extract_shapes_with_z cells) (hidD : sD.id = some j) :
    sC.z_index < sD.z_index := by
  obtain ⟨kc, kj, hkc, hkj, hklt, _, _⟩ :=
    drawOrderWalked_cid_before_j cells cid j cj hnodup hcont hj hpar hne hjw
  rw [z_of_extracted cells sC hsC, z_of_extracted cells sD hsD, hidC, hidD]
  have hwne : drawOrderWalked cells ≠ [] := by
    intro hcon
    rw [hcon] at hjw
    exact List.not_mem_nil _ hjw
  have hbuild : buildDrawOrder cells = drawOrderWalked cells := by
    unfold buildDrawOrder
    rw [if_neg hwne]
  unfold shape_z_index
  dsimp only
  rw [hbuild, hkc, hkj]
  simp only [Option.getD_some]
  rw [if_pos hcont]
  have hcast : (kc : ℤ) < (kj : ℤ) := by exact_mod_cast hklt
  by_cases hdj : isContainerVertexId cells j = true
  · rw [if_pos hdj]
    omega
  · rw [if_neg hdj]
    omega

/-- C6 witness: in `wfCells` the container `a` is assigned z-index
-100000 and its child `b` z-index 1, so the container stays behind. -/
theorem container_behind_contents_witness :
    (⟨some ("a".toList), 0, 0, -100000⟩ : ShapeRec).z_index <
      (⟨some ("b".toList), 0, 0, 1⟩ : ShapeRec).z_index :=
  container_behind_contents wfCells ("a".toList) ("b".toList)
    ⟨some ("b".toList), some ("a".toList), true, false, [], some ⟨none, none, none, none⟩⟩
    ⟨some ("a".toList), 0, 0, -100000⟩ ⟨some ("b".toList), 0, 0, 1⟩
    (by decide) (by decide) (by decide) (by decide) (by decide) (by decide)
    (by decide) (by decide) (by decide) (by decide)
